import Mathlib

/-!
# Block file manager (`storage_mgr.c`): embedding and verified properties

The C file drives a POSIX file through `open`, `close`, `lseek`, `read`,
`write`, `fstat` and `calloc`.  The embedding has two layers:

* a deterministic model of the part of POSIX the code calls (`World` and the
  `sys_*` functions), in which every failure is a function of the state:
  a descriptor that is not open, a negative seek offset, end of file on a
  read, no free disk space on a write, no free memory on `calloc`, no free
  descriptor or an inaccessible path on `open`;
* the functions of `storage_mgr.c`, translated statement by statement on top
  of that layer, with the handle and the world passed explicitly.

C `int` values are `Int`s; every `int` computation that can leave the 32-bit
range goes through `wrapInt` (two's complement wrap-around).  `PAGE_SIZE`
comes from a header that is not part of the sources, so every function takes
it as its first parameter.  `THROW(rc, msg)` is modelled as `return rc`: the
message it records is not part of any property here.  `free` has no effect
on the model: `fileName` keeps its value after `closePageFile`.
`initStorageManager` (empty) and `destroyPageFile` are not needed by any
property and are left out.
-/

namespace StorageMgr

/-! ## Machine integers -/

/-- Reduction of a mathematical integer to the value a 32-bit C `int` holds. -/
def wrapInt (x : Int) : Int :=
  (x + 2147483648) % 4294967296 - 2147483648

/-- The values a C `int` can hold. -/
def IsCInt (x : Int) : Prop :=
  -2147483648 ≤ x ∧ x < 2147483648

instance (x : Int) : Decidable (IsCInt x) := by
  unfold IsCInt
  exact inferInstance

/-! ## The POSIX layer -/

/-- One byte of file or buffer content. -/
abbrev Byte := Fin 256

/-- A regular file: its length in bytes and its content.  Only the bytes
below `size` are content; `data` beyond `size` is never observed. -/
structure File where
  size : Nat
  data : Nat → Byte

/-- An open file description: the file it refers to and the file offset. -/
structure OpenFD where
  ino : Nat
  pos : Nat
  deriving DecidableEq

/-- The state of the operating system as far as the storage manager sees it. -/
structure World where
  /-- Directory: path name to file number. -/
  names : String → Option Nat
  /-- The files, by file number. -/
  inodes : Nat → File
  /-- Next unused file number. -/
  nextIno : Nat
  /-- Descriptor table. -/
  fds : Nat → Option OpenFD
  /-- Descriptors are allocated below this limit. -/
  fdLimit : Nat
  /-- Paths the process may neither open nor create. -/
  noAccess : String → Bool
  /-- Free bytes left on the disk. -/
  diskFree : Nat
  /-- Free bytes left on the heap. -/
  memFree : Nat

/-- The open file description behind descriptor `fd`, if it is open. -/
def fdGet (w : World) (fd : Int) : Option OpenFD :=
  if 0 ≤ fd then w.fds fd.toNat else none

/-- Replace the entry of descriptor `fd`. -/
def fdSet (w : World) (fd : Int) (v : Option OpenFD) : World :=
  { w with fds := fun j => if j = fd.toNat then v else w.fds j }

/-- Replace file number `ino`. -/
def inoSet (w : World) (ino : Nat) (f : File) : World :=
  { w with inodes := fun j => if j = ino then f else w.inodes j }

/-- The lowest descriptor below the limit that is not open.  A descriptor is
a C `int`, so the limit is at most `INT_MAX + 1`. -/
def lowestFreeFd (w : World) : Option Nat :=
  (List.range (min w.fdLimit 2147483648)).find? (fun i => (w.fds i).isNone)

/-- Model of `open(path, O_RDWR [| O_CREAT] [| O_TRUNC], ...)`: returns the new
descriptor, or `-1`. -/
def sys_open (w : World) (path : String) (creat trunc : Bool) : Int × World :=
  if w.noAccess path then (-1, w)
  else
    match lowestFreeFd w with
    | none => (-1, w)
    | some fd =>
      match w.names path with
      | some ino =>
        let w1 :=
          if trunc then
            { inoSet w ino { w.inodes ino with size := 0 } with
              diskFree := w.diskFree + (w.inodes ino).size }
          else w
        ((fd : Int), fdSet w1 fd (some ⟨ino, 0⟩))
      | none =>
        if creat then
          let w1 : World :=
            { inoSet w w.nextIno ⟨0, fun _ => 0⟩ with
              names := fun s => if s = path then some w.nextIno else w.names s
              nextIno := w.nextIno + 1 }
          ((fd : Int), fdSet w1 fd (some ⟨w.nextIno, 0⟩))
        else (-1, w)

/-- Model of `close(fd)`. -/
def sys_close (w : World) (fd : Int) : Int × World :=
  match fdGet w fd with
  | none => (-1, w)
  | some _ => (0, fdSet w fd none)

/-- Model of `fstat(fd, &st)`, reduced to the `st_size` it stores; an invalid
descriptor leaves `st` unset, modelled as size `0`. -/
def sys_fstat_size (w : World) (fd : Int) : Nat :=
  match fdGet w fd with
  | none => 0
  | some o => (w.inodes o.ino).size

/-- Model of `lseek(fd, off, SEEK_SET)`: the new offset, or `-1`. -/
def sys_lseek_set (w : World) (fd : Int) (off : Int) : Int × World :=
  match fdGet w fd with
  | none => (-1, w)
  | some o =>
    if off < 0 then (-1, w)
    else (off, fdSet w fd (some { o with pos := off.toNat }))

/-- Model of `lseek(fd, 0, SEEK_END)`: the new offset, or `-1`. -/
def sys_lseek_end (w : World) (fd : Int) : Int × World :=
  match fdGet w fd with
  | none => (-1, w)
  | some o =>
    (((w.inodes o.ino).size : Nat), fdSet w fd (some { o with pos := (w.inodes o.ino).size }))

/-- The `n` bytes of a file that start at offset `pos`. -/
def File.bytesAt (f : File) (pos n : Nat) : List Byte :=
  (List.range n).map (fun i => f.data (pos + i))

/-- The file after `n` bytes of `buf` were written at offset `pos`.  A write
past the end of the file extends it, and a gap between the old end and `pos`
reads as zeros.  A buffer shorter than `n` is read as zeros past its end. -/
def File.store (f : File) (pos : Nat) (buf : List Byte) (n : Nat) : File :=
  { size := if n = 0 then f.size else max f.size (pos + n)
    data := fun i =>
      if pos ≤ i ∧ i < pos + n then buf.getD (i - pos) 0
      else if f.size ≤ i ∧ i < pos then 0
      else f.data i }

/-- Model of `read(fd, buf, count)`: the number of bytes read (fewer than
`count` at end of file) or `-1`, the buffer afterwards, and the world. -/
def sys_read (w : World) (fd : Int) (buf : List Byte) (count : Nat) :
    Int × List Byte × World :=
  match fdGet w fd with
  | none => (-1, buf, w)
  | some o =>
    let f := w.inodes o.ino
    let n := min count (f.size - o.pos)
    ((n : Int),
     f.bytesAt o.pos n ++ buf.drop n,
     fdSet w fd (some { o with pos := o.pos + n }))

/-- The world after `n` bytes of `buf` went through descriptor `fd`, whose
open file description was `o`: the file holds them at the old offset, the
offset has moved past them, and the space the file grew by is off the disk. -/
def wrote (w : World) (fd : Int) (o : OpenFD) (buf : List Byte) (n : Nat) : World :=
  { fdSet (inoSet w o.ino ((w.inodes o.ino).store o.pos buf n)) fd
      (some { o with pos := o.pos + n }) with
    diskFree := w.diskFree - (((w.inodes o.ino).store o.pos buf n).size - (w.inodes o.ino).size) }

/-- Model of `write(fd, buf, count)`: the number of bytes written or `-1`.
Bytes that land inside the file need no new space; bytes beyond its end
(and the gap before them) take it from `diskFree`.  When the disk cannot
hold all of them the write is short, and it fails with `-1` when not a
single byte fits. -/
def sys_write (w : World) (fd : Int) (buf : List Byte) (count : Nat) : Int × World :=
  match fdGet w fd with
  | none => (-1, w)
  | some o =>
    let n := min count ((w.inodes o.ino).size + w.diskFree - o.pos)
    if n = 0 ∧ 0 < count then (-1, w)
    else ((n : Int), wrote w fd o buf n)

/-- Model of `calloc(n, 1)` followed later by `free`: the zero-filled block
the call returns, or `none` when the heap cannot hold it. -/
def sys_calloc (w : World) (n : Nat) : Option (List Byte) :=
  if w.memFree < n then none else some (List.replicate n 0)

/-! ## The storage manager -/

/-- Return codes of `dberror.h` used by the storage manager. -/
inductive RC where
  | RC_OK
  | RC_FILE_NOT_FOUND
  | RC_FILE_HANDLE_NOT_INIT
  | RC_WRITE_FAILED
  | RC_READ_NON_EXISTING_PAGE
  deriving DecidableEq, Repr

open RC

/-- The `SM_FileHandle` record.  `mgmtInfo` is the pointer-sized field the
descriptor is stored in; `0` is `NULL`. -/
structure SM_FileHandle where
  fileName : String
  totalNumPages : Int
  curPagePos : Int
  mgmtInfo : Int

/-- Code `(int)(intptr_t)fHandle->mgmtInfo`. -/
def handleFd (fHandle : SM_FileHandle) : Int :=
  wrapInt fHandle.mgmtInfo

/-- What a function taking `SM_FileHandle *` leaves behind: the return code,
the handle and the world. -/
structure Ret where
  rc : RC
  fh : SM_FileHandle
  w : World

/-- What a read leaves behind: as `Ret`, with the caller's page buffer. -/
structure ReadRet where
  rc : RC
  fh : SM_FileHandle
  buf : List Byte
  w : World

/-- Function `createPageFile`. -/
def createPageFile (PAGE_SIZE : Nat) (fileName : String) (w : World) : RC × World :=
  let (fd, w1) := sys_open w fileName true true
  if fd = -1 then (RC_FILE_NOT_FOUND, w1)
  else
    match sys_calloc w1 PAGE_SIZE with
    | none => (RC_WRITE_FAILED, (sys_close w1 fd).2)
    | some page =>
      let (bytesWritten, w2) := sys_write w1 fd page PAGE_SIZE
      let w3 := (sys_close w2 fd).2
      if bytesWritten ≠ (PAGE_SIZE : Int) then (RC_WRITE_FAILED, w3)
      else (RC_OK, w3)

/-- Function `openPageFile`. -/
def openPageFile (PAGE_SIZE : Nat) (fileName : String) (fHandle : SM_FileHandle)
    (w : World) : Ret :=
  let (fd, w1) := sys_open w fileName false false
  if fd = -1 then ⟨RC_FILE_NOT_FOUND, fHandle, w1⟩
  else
    ⟨RC_OK,
     { fileName := fileName
       totalNumPages := wrapInt ((sys_fstat_size w1 fd : Int) / (PAGE_SIZE : Int))
       curPagePos := 0
       mgmtInfo := fd },
     w1⟩

/-- Function `closePageFile`. -/
def closePageFile (fHandle : SM_FileHandle) (w : World) : Ret :=
  if fHandle.mgmtInfo = 0 then ⟨RC_FILE_HANDLE_NOT_INIT, fHandle, w⟩
  else
    ⟨RC_OK, { fHandle with mgmtInfo := 0 }, (sys_close w (handleFd fHandle)).2⟩

/-- Function `readBlock`. -/
def readBlock (PAGE_SIZE : Nat) (pageNum : Int) (fHandle : SM_FileHandle)
    (memPage : List Byte) (w : World) : ReadRet :=
  if pageNum < 0 ∨ pageNum ≥ fHandle.totalNumPages then
    ⟨RC_READ_NON_EXISTING_PAGE, fHandle, memPage, w⟩
  else
    let fd := handleFd fHandle
    let (offset, w1) := sys_lseek_set w fd (wrapInt (pageNum * PAGE_SIZE))
    if offset = -1 then ⟨RC_READ_NON_EXISTING_PAGE, fHandle, memPage, w1⟩
    else
      let (n, memPage1, w2) := sys_read w1 fd memPage PAGE_SIZE
      if n ≠ (PAGE_SIZE : Int) then ⟨RC_READ_NON_EXISTING_PAGE, fHandle, memPage1, w2⟩
      else ⟨RC_OK, { fHandle with curPagePos := pageNum }, memPage1, w2⟩

/-- Function `getBlockPos`. -/
def getBlockPos (fHandle : SM_FileHandle) : Int :=
  fHandle.curPagePos

/-- Function `readFirstBlock`. -/
def readFirstBlock (PAGE_SIZE : Nat) (fHandle : SM_FileHandle) (memPage : List Byte)
    (w : World) : ReadRet :=
  readBlock PAGE_SIZE 0 fHandle memPage w

/-- Function `readPreviousBlock`. -/
def readPreviousBlock (PAGE_SIZE : Nat) (fHandle : SM_FileHandle) (memPage : List Byte)
    (w : World) : ReadRet :=
  readBlock PAGE_SIZE (wrapInt (fHandle.curPagePos - 1)) fHandle memPage w

/-- Function `readCurrentBlock`. -/
def readCurrentBlock (PAGE_SIZE : Nat) (fHandle : SM_FileHandle) (memPage : List Byte)
    (w : World) : ReadRet :=
  readBlock PAGE_SIZE fHandle.curPagePos fHandle memPage w

/-- Function `readNextBlock`. -/
def readNextBlock (PAGE_SIZE : Nat) (fHandle : SM_FileHandle) (memPage : List Byte)
    (w : World) : ReadRet :=
  readBlock PAGE_SIZE (wrapInt (fHandle.curPagePos + 1)) fHandle memPage w

/-- Function `readLastBlock`. -/
def readLastBlock (PAGE_SIZE : Nat) (fHandle : SM_FileHandle) (memPage : List Byte)
    (w : World) : ReadRet :=
  readBlock PAGE_SIZE (wrapInt (fHandle.totalNumPages - 1)) fHandle memPage w

/-- Function `writeBlock`. -/
def writeBlock (PAGE_SIZE : Nat) (pageNum : Int) (fHandle : SM_FileHandle)
    (memPage : List Byte) (w : World) : Ret :=
  if pageNum < 0 ∨ pageNum ≥ fHandle.totalNumPages then
    ⟨RC_READ_NON_EXISTING_PAGE, fHandle, w⟩
  else
    let fd := handleFd fHandle
    let (offset, w1) := sys_lseek_set w fd (wrapInt (pageNum * PAGE_SIZE))
    if offset = -1 then ⟨RC_WRITE_FAILED, fHandle, w1⟩
    else
      let (n, w2) := sys_write w1 fd memPage PAGE_SIZE
      if n ≠ (PAGE_SIZE : Int) then ⟨RC_WRITE_FAILED, fHandle, w2⟩
      else ⟨RC_OK, fHandle, w2⟩

/-- Function `writeCurrentBlock`. -/
def writeCurrentBlock (PAGE_SIZE : Nat) (fHandle : SM_FileHandle) (memPage : List Byte)
    (w : World) : Ret :=
  writeBlock PAGE_SIZE fHandle.curPagePos fHandle memPage w

/-- Function `appendEmptyBlock`. -/
def appendEmptyBlock (PAGE_SIZE : Nat) (fHandle : SM_FileHandle) (w : World) : Ret :=
  match sys_calloc w PAGE_SIZE with
  | none => ⟨RC_WRITE_FAILED, fHandle, w⟩
  | some page =>
    let fd := handleFd fHandle
    let w1 := (sys_lseek_end w fd).2
    let (n, w2) := sys_write w1 fd page PAGE_SIZE
    if n ≠ (PAGE_SIZE : Int) then ⟨RC_WRITE_FAILED, fHandle, w2⟩
    else ⟨RC_OK, { fHandle with totalNumPages := wrapInt (fHandle.totalNumPages + 1) }, w2⟩

/-- The `for` loop of `ensureCapacity` with `n` iterations left.  The loop
counter `i` and the bound `numberOfPages` are locals the body does not touch,
so the number of iterations still to run is `numberOfPages - i`. -/
def ensureCapacityLoop (PAGE_SIZE : Nat) : Nat → SM_FileHandle → World → Ret
  | 0, fHandle, w => ⟨RC_OK, fHandle, w⟩
  | n + 1, fHandle, w =>
    let r := appendEmptyBlock PAGE_SIZE fHandle w
    if r.rc ≠ RC_OK then r
    else ensureCapacityLoop PAGE_SIZE n r.fh r.w

/-- Function `ensureCapacity`. -/
def ensureCapacity (PAGE_SIZE : Nat) (numberOfPages : Int) (fHandle : SM_FileHandle)
    (w : World) : Ret :=
  if numberOfPages ≤ fHandle.totalNumPages then ⟨RC_OK, fHandle, w⟩
  else
    ensureCapacityLoop PAGE_SIZE (numberOfPages - fHandle.totalNumPages).toNat fHandle w

/-! ## Definitions used to state the properties -/

/-- The world in which `writeBlock` finished a successful write: the seek
moved the offset of the open file description `o` to `off`, then the page
went through. -/
def wroteAt (w : World) (fd : Int) (o : OpenFD) (off : Nat) (buf : List Byte) (n : Nat) :
    World :=
  wrote (fdSet w fd (some { o with pos := off })) fd { o with pos := off } buf n

/-- A small world for concrete evaluation: the standard descriptors 0 to 2
are redirected to file 0, the page file `"t1"` is file 1 with two 4-byte
pages and is open on descriptor 3 with its offset at the start. -/
def demoWorld : World :=
  { names := fun s => if s = "t1" then some 1 else none
    inodes := fun j => if j = 1 then ⟨8, fun i => if i < 4 then 7 else 9⟩ else ⟨0, fun _ => 0⟩
    nextIno := 2
    fds := fun j => if j < 3 then some ⟨0, 0⟩ else if j = 3 then some ⟨1, 0⟩ else none
    fdLimit := 16
    noAccess := fun _ => false
    diskFree := 64
    memFree := 64 }

/-- The handle `openPageFile` produces for `"t1"` in `demoWorld`. -/
def demoHandle : SM_FileHandle :=
  { fileName := "t1", totalNumPages := 2, curPagePos := 0, mgmtInfo := 3 }

/-- What a file freshly made by `createPageFile` looks like: one page of
zero bytes. -/
def IsFreshPageFile (PAGE_SIZE : Nat) (f : File) : Prop :=
  f.size = PAGE_SIZE ∧ ∀ i, i < PAGE_SIZE → f.data i = 0

/-- The handle and the world after `j` calls of `appendEmptyBlock` in a row,
each on what the one before left behind. -/
def afterAppends (PAGE_SIZE : Nat) : Nat → SM_FileHandle × World → SM_FileHandle × World
  | 0, s => s
  | j + 1, s =>
    afterAppends PAGE_SIZE j
      ((appendEmptyBlock PAGE_SIZE s.1 s.2).fh, (appendEmptyBlock PAGE_SIZE s.1 s.2).w)

/-- The append number `j` (counted from 0) of a row of appends that starts on
handle `fh` in world `w`. -/
def nthAppend (PAGE_SIZE : Nat) (j : Nat) (fh : SM_FileHandle) (w : World) : Ret :=
  appendEmptyBlock PAGE_SIZE (afterAppends PAGE_SIZE j (fh, w)).1
    (afterAppends PAGE_SIZE j (fh, w)).2

/-- The content of page `q` of a file: the bytes
`[q * PAGE_SIZE, (q + 1) * PAGE_SIZE)`. -/
def pageAt (PAGE_SIZE : Nat) (f : File) (q : Nat) : List Byte :=
  f.bytesAt (q * PAGE_SIZE) PAGE_SIZE

/-- File `g` is file `f` with `d` zero bytes added at its end. -/
def GrewBy (f g : File) (d : Nat) : Prop :=
  g.size = f.size + d ∧ (∀ i, i < f.size → g.data i = f.data i) ∧
    (∀ i, f.size ≤ i → i < f.size + d → g.data i = 0)

/-- The world `demoWorld` with only 6 free bytes left on the disk: one more
4-byte page fits, a second one does not. -/
def tightWorld : World :=
  { demoWorld with diskFree := 6 }

/-- One call on an open handle, with its arguments: the operations a caller
can issue between `openPageFile` and `closePageFile`. -/
inductive Op where
  | readBlock (pageNum : Int) (memPage : List Byte)
  | readFirstBlock (memPage : List Byte)
  | readPreviousBlock (memPage : List Byte)
  | readCurrentBlock (memPage : List Byte)
  | readNextBlock (memPage : List Byte)
  | readLastBlock (memPage : List Byte)
  | writeBlock (pageNum : Int) (memPage : List Byte)
  | writeCurrentBlock (memPage : List Byte)
  | appendEmptyBlock
  | ensureCapacity (numberOfPages : Int)

/-- Drop the page buffer of a read result. -/
def ReadRet.toRet (r : ReadRet) : Ret :=
  ⟨r.rc, r.fh, r.w⟩

/-- Run one call. -/
def Op.run (PAGE_SIZE : Nat) (op : Op) (fh : SM_FileHandle) (w : World) : Ret :=
  match op with
  | .readBlock p b => (StorageMgr.readBlock PAGE_SIZE p fh b w).toRet
  | .readFirstBlock b => (StorageMgr.readFirstBlock PAGE_SIZE fh b w).toRet
  | .readPreviousBlock b => (StorageMgr.readPreviousBlock PAGE_SIZE fh b w).toRet
  | .readCurrentBlock b => (StorageMgr.readCurrentBlock PAGE_SIZE fh b w).toRet
  | .readNextBlock b => (StorageMgr.readNextBlock PAGE_SIZE fh b w).toRet
  | .readLastBlock b => (StorageMgr.readLastBlock PAGE_SIZE fh b w).toRet
  | .writeBlock p b => StorageMgr.writeBlock PAGE_SIZE p fh b w
  | .writeCurrentBlock b => StorageMgr.writeCurrentBlock PAGE_SIZE fh b w
  | .appendEmptyBlock => StorageMgr.appendEmptyBlock PAGE_SIZE fh w
  | .ensureCapacity k => StorageMgr.ensureCapacity PAGE_SIZE k fh w

/-- Run a sequence of calls, each on the handle and world the one before
left behind, whatever it returned. -/
def runOps (PAGE_SIZE : Nat) : List Op → SM_FileHandle × World → SM_FileHandle × World
  | [], s => s
  | op :: ops, s => runOps PAGE_SIZE ops ((op.run PAGE_SIZE s.1 s.2).fh, (op.run PAGE_SIZE s.1 s.2).w)

/-- The call `appendEmptyBlock` on this handle and world fails after a short
write: it returns an error and leaves the file behind the handle's descriptor
(as `fstat` sizes it) at another size than it was. -/
def ShortAppend (PAGE_SIZE : Nat) (fh : SM_FileHandle) (w : World) : Prop :=
  (appendEmptyBlock PAGE_SIZE fh w).rc ≠ RC_OK ∧
    sys_fstat_size (appendEmptyBlock PAGE_SIZE fh w).w (handleFd fh)
      ≠ sys_fstat_size w (handleFd fh)

/-- The condition under which a call keeps the file page-aligned: no append
it makes fails after a short write, and the page count it reaches is a C
`int`.  For `ensureCapacity` the appends it makes are those of the row up to
and including the first that fails.  An append or `ensureCapacity` that fails
without writing is not restricted, nor are reads and writes, whatever they
return. -/
def Op.NoShortAppend (PAGE_SIZE : Nat) (op : Op) (fh : SM_FileHandle) (w : World) : Prop :=
  match op with
  | .appendEmptyBlock =>
    ¬ ShortAppend PAGE_SIZE fh w ∧
      ((StorageMgr.appendEmptyBlock PAGE_SIZE fh w).rc = RC_OK →
        fh.totalNumPages + 1 < 2147483648)
  | .ensureCapacity k =>
    k < 2147483648 ∧
      ∀ j, j < (k - fh.totalNumPages).toNat →
        (∀ i, i < j → (nthAppend PAGE_SIZE i fh w).rc = RC_OK) →
        ¬ ShortAppend PAGE_SIZE (afterAppends PAGE_SIZE j (fh, w)).1
            (afterAppends PAGE_SIZE j (fh, w)).2
  | _ => True

/-- Every call of the sequence satisfies `Op.NoShortAppend` in the state it
runs in. -/
def AllNoShortAppend (PAGE_SIZE : Nat) : List Op → SM_FileHandle × World → Prop
  | [], _ => True
  | op :: ops, s =>
    op.NoShortAppend PAGE_SIZE s.1 s.2 ∧
      AllNoShortAppend PAGE_SIZE ops
        ((op.run PAGE_SIZE s.1 s.2).fh, (op.run PAGE_SIZE s.1 s.2).w)

/-- The handle is open on file `ino`, whose size is exactly
`totalNumPages * PAGE_SIZE` bytes. -/
def InSync (PAGE_SIZE : Nat) (ino : Nat) (fh : SM_FileHandle) (w : World) : Prop :=
  (∃ pos, fdGet w (handleFd fh) = some ⟨ino, pos⟩) ∧
    ((w.inodes ino).size : Int) = fh.totalNumPages * PAGE_SIZE

instance (PAGE_SIZE : Nat) (fh : SM_FileHandle) (w : World) :
    Decidable (ShortAppend PAGE_SIZE fh w) := by
  unfold ShortAppend
  exact inferInstance

instance (PAGE_SIZE : Nat) (op : Op) (fh : SM_FileHandle) (w : World) :
    Decidable (op.NoShortAppend PAGE_SIZE fh w) := by
  cases op <;> unfold Op.NoShortAppend <;> exact inferInstance

/-- Decision procedure for `AllNoShortAppend`, call by call. -/
def decAllNoShortAppend (PAGE_SIZE : Nat) :
    (ops : List Op) → (s : SM_FileHandle × World) →
      Decidable (AllNoShortAppend PAGE_SIZE ops s)
  | [], _ => isTrue trivial
  | op :: ops, s =>
    match (inferInstance : Decidable (op.NoShortAppend PAGE_SIZE s.1 s.2)),
      decAllNoShortAppend PAGE_SIZE ops
        ((op.run PAGE_SIZE s.1 s.2).fh, (op.run PAGE_SIZE s.1 s.2).w) with
    | isTrue h1, isTrue h2 => isTrue ⟨h1, h2⟩
    | isFalse h1, _ => isFalse (fun h => h1 h.1)
    | _, isFalse h2 => isFalse (fun h => h2 h.2)

instance (PAGE_SIZE : Nat) (ops : List Op) (s : SM_FileHandle × World) :
    Decidable (AllNoShortAppend PAGE_SIZE ops s) :=
  decAllNoShortAppend PAGE_SIZE ops s

/-- A world with the standard descriptors 0 to 2 redirected to file 0, no
page file yet, and 6 free bytes on the disk. -/
def smallDiskWorld : World :=
  { names := fun _ => none
    inodes := fun _ => ⟨0, fun _ => 0⟩
    nextIno := 1
    fds := fun j => if j < 3 then some ⟨0, 0⟩ else none
    fdLimit := 16
    noAccess := fun _ => false
    diskFree := 6
    memFree := 64 }

/-- The result of `openPageFile` on `"t2"` after `createPageFile` made it in
`smallDiskWorld`, with 4-byte pages. -/
def smallDiskOpened : Ret :=
  openPageFile 4 "t2" ⟨"", 0, 0, 0⟩ (createPageFile 4 "t2" smallDiskWorld).2

/-- The result of `appendEmptyBlock` on the handle of `smallDiskOpened`. -/
def smallDiskAppended : Ret :=
  appendEmptyBlock 4 smallDiskOpened.fh smallDiskOpened.w

/-- The result of `closePageFile` on `demoHandle` in `demoWorld`. -/
def demoClosed : Ret :=
  closePageFile demoHandle demoWorld

/-- A world whose page file `"big"` (file 1) has `2 ^ 20 + 1` pages of 4096
zero bytes and is open on descriptor 3. -/
def bigWorld : World :=
  { names := fun s => if s = "big" then some 1 else none
    inodes := fun j => if j = 1 then ⟨4294971392, fun _ => 0⟩ else ⟨0, fun _ => 0⟩
    nextIno := 2
    fds := fun j => if j < 3 then some ⟨0, 0⟩ else if j = 3 then some ⟨1, 0⟩ else none
    fdLimit := 16
    noAccess := fun _ => false
    diskFree := 8192
    memFree := 8192 }

/-- The handle `openPageFile` produces for `"big"` in `bigWorld` with
`PAGE_SIZE = 4096`. -/
def bigHandle : SM_FileHandle :=
  { fileName := "big", totalNumPages := 1048577, curPagePos := 0, mgmtInfo := 3 }

/-- The result of writing a page of 4096 bytes of value 1 to page `2 ^ 20`,
the last page of `"big"`. -/
def bigWritten : Ret :=
  writeBlock 4096 1048576 bigHandle (List.replicate 4096 1) bigWorld

/-- A world whose page file `"full"` (file 1) has exactly `2 ^ 20` pages of
4096 bytes, the first byte being 7 and all others 0, open on descriptor 3. -/
def fullWorld : World :=
  { names := fun s => if s = "full" then some 1 else none
    inodes := fun j =>
      if j = 1 then ⟨4294967296, fun i => if i = 0 then 7 else 0⟩ else ⟨0, fun _ => 0⟩
    nextIno := 2
    fds := fun j => if j < 3 then some ⟨0, 0⟩ else if j = 3 then some ⟨1, 0⟩ else none
    fdLimit := 16
    noAccess := fun _ => false
    diskFree := 8192
    memFree := 8192 }

/-- The handle `openPageFile` produces for `"full"` in `fullWorld` with
`PAGE_SIZE = 4096`. -/
def fullHandle : SM_FileHandle :=
  { fileName := "full", totalNumPages := 1048576, curPagePos := 0, mgmtInfo := 3 }

/-- The result of `appendEmptyBlock` on `fullHandle`. -/
def fullAppended : Ret :=
  appendEmptyBlock 4096 fullHandle fullWorld

/-- A world with the standard descriptors 0 to 2 redirected to file 0, no
page file yet, and 12 free bytes on the disk: exactly three 4-byte pages. -/
def exactDiskWorld : World :=
  { smallDiskWorld with diskFree := 12 }

/-- The result of `openPageFile` on `"t3"` after `createPageFile` made it in
`exactDiskWorld`, with 4-byte pages. -/
def exactDiskOpened : Ret :=
  openPageFile 4 "t3" ⟨"", 0, 0, 0⟩ (createPageFile 4 "t3" exactDiskWorld).2

/-- A sequence of calls on `exactDiskOpened`: a write, an `ensureCapacity`
that fills the disk with its second append and stops on the third, an append
that fails on the full disk, reads in and out of range, a write at the
cursor, and an `ensureCapacity` that has nothing to do. -/
def exactDiskOps : List Op :=
  [.writeBlock 0 [1, 2, 3, 4], .ensureCapacity 5, .readBlock 5 [0, 0, 0, 0],
   .appendEmptyBlock, .readLastBlock [0, 0, 0, 0], .writeCurrentBlock [5, 6, 7, 8],
   .readPreviousBlock [0, 0, 0, 0], .ensureCapacity 2]

/-! ## Facts about the POSIX layer -/

theorem wrapInt_of_isCInt {x : Int} (hx : IsCInt x) : wrapInt x = x := by
  unfold IsCInt at hx
  unfold wrapInt
  omega

theorem wrapInt_isCInt (x : Int) : IsCInt (wrapInt x) := by
  unfold IsCInt wrapInt
  omega

theorem fdGet_fdSet (w : World) (fd : Int) (v : Option OpenFD) (hfd : 0 ≤ fd) :
    fdGet (fdSet w fd v) fd = v := by
  simp [fdGet, fdSet, hfd]

theorem fdGet_nonneg {w : World} {fd : Int} {o : OpenFD} (h : fdGet w fd = some o) :
    0 ≤ fd := by
  unfold fdGet at h
  by_contra hneg
  simp [hneg] at h

theorem bytesAt_length (f : File) (pos n : Nat) : (f.bytesAt pos n).length = n := by
  simp [File.bytesAt]

theorem map_getD_range (b : List Byte) :
    (List.range b.length).map (fun i => b.getD i 0) = b := by
  apply List.ext_getElem
  · simp
  · intro i h1 h2
    simp at h1
    simp [List.getD_eq_getElem, h1]

/-- Reading back the bytes just stored returns the buffer. -/
theorem bytesAt_store (f : File) (pos : Nat) (b : List Byte) :
    (f.store pos b b.length).bytesAt pos b.length = b := by
  unfold File.bytesAt File.store
  simp only
  have : (fun i => if pos ≤ pos + i ∧ pos + i < pos + b.length
        then b.getD (pos + i - pos) 0
        else if f.size ≤ pos + i ∧ pos + i < pos then 0 else f.data (pos + i))
      = fun i => if i < b.length then b.getD i 0 else f.data (pos + i) := by
    funext i
    by_cases hi : i < b.length
    · simp [hi]
    · simp [hi]
  rw [this]
  conv_rhs => rw [← map_getD_range b]
  apply List.map_congr_left
  intro i hi
  simp at hi
  simp [hi]

theorem sys_write_full {w : World} {fd : Int} {buf : List Byte} {count : Nat}
    (h : (sys_write w fd buf count).1 = (count : Int)) :
    ∃ o, fdGet w fd = some o ∧ count ≤ (w.inodes o.ino).size + w.diskFree - o.pos ∧
      (sys_write w fd buf count).2 = wrote w fd o buf count := by
  unfold sys_write at h ⊢
  cases hfd : fdGet w fd with
  | none =>
    simp [hfd] at h
  | some o =>
    simp only [hfd] at h ⊢
    refine ⟨o, rfl, ?_⟩
    split at h
    · simp at h
    · simp at h
      have hmin : min count ((w.inodes o.ino).size + w.diskFree - o.pos) = count := by
        omega
      rw [if_neg (by omega)]
      simp only [hmin]
      exact ⟨by omega, trivial⟩

theorem sys_lseek_set_ok {w : World} {fd off : Int}
    (h : (sys_lseek_set w fd off).1 ≠ -1) :
    ∃ o, fdGet w fd = some o ∧ 0 ≤ off ∧
      (sys_lseek_set w fd off).2 = fdSet w fd (some { o with pos := off.toNat }) := by
  unfold sys_lseek_set at h ⊢
  cases hfd : fdGet w fd with
  | none => simp [hfd] at h
  | some o =>
    simp only [hfd] at h ⊢
    refine ⟨o, rfl, ?_⟩
    split at h
    · simp at h
    · rename_i hoff
      rw [if_neg hoff]
      exact ⟨by omega, rfl⟩

/-! ## Writing and reading back -/

theorem writeBlock_ok_inv {PS : Nat} {p : Int} {fh : SM_FileHandle} {b : List Byte}
    {w : World} (h : (writeBlock PS p fh b w).rc = RC_OK) :
    0 ≤ p ∧ p < fh.totalNumPages ∧ 0 ≤ wrapInt (p * PS) ∧
    ∃ o, fdGet w (handleFd fh) = some o ∧
      PS ≤ (w.inodes o.ino).size + w.diskFree - (wrapInt (p * PS)).toNat ∧
      writeBlock PS p fh b w
        = ⟨RC_OK, fh, wroteAt w (handleFd fh) o (wrapInt (p * PS)).toNat b PS⟩ := by
  unfold writeBlock at h ⊢
  by_cases hb : p < 0 ∨ p ≥ fh.totalNumPages
  · simp [hb] at h
  · rw [if_neg hb] at h ⊢
    simp only at h ⊢
    by_cases hs : (sys_lseek_set w (handleFd fh) (wrapInt (p * PS))).1 = -1
    · simp [hs] at h
    · rw [if_neg hs] at h ⊢
      obtain ⟨o, hfd, hoff, hw1⟩ := sys_lseek_set_ok hs
      by_cases hn : (sys_write (sys_lseek_set w (handleFd fh) (wrapInt (p * PS))).2
          (handleFd fh) b PS).1 = (PS : Int)
      · obtain ⟨o1, hfd1, hcap, hw2⟩ := sys_write_full hn
        rw [hw1, fdGet_fdSet _ _ _ (fdGet_nonneg hfd)] at hfd1
        cases hfd1
        refine ⟨by omega, by omega, hoff, o, hfd, ?_, ?_⟩
        · rw [hw1] at hcap
          simpa [fdSet] using hcap
        · simp only [ne_eq, hn, not_true_eq_false, if_false]
          rw [hw2, hw1]
          rfl
      · simp [hn] at h

theorem readBlock_ok_of {PS : Nat} {p : Int} {fh : SM_FileHandle} (buf : List Byte)
    {w : World} {o : OpenFD} (hp0 : 0 ≤ p) (hp1 : p < fh.totalNumPages)
    (hoff : 0 ≤ wrapInt (p * PS)) (hfd : fdGet w (handleFd fh) = some o)
    (hsz : PS ≤ (w.inodes o.ino).size - (wrapInt (p * PS)).toNat) :
    (readBlock PS p fh buf w).rc = RC_OK ∧
    (readBlock PS p fh buf w).fh = { fh with curPagePos := p } ∧
    (readBlock PS p fh buf w).buf
      = (w.inodes o.ino).bytesAt (wrapInt (p * PS)).toNat PS ++ buf.drop PS ∧
    (readBlock PS p fh buf w).w
      = fdSet (fdSet w (handleFd fh) (some { o with pos := (wrapInt (p * PS)).toNat }))
          (handleFd fh) (some { o with pos := (wrapInt (p * PS)).toNat + PS }) := by
  have hfd0 := fdGet_nonneg hfd
  have hb : ¬ (p < 0 ∨ p ≥ fh.totalNumPages) := by omega
  have hnl : ¬ (wrapInt (p * PS) < 0) := by omega
  have hmin : min PS ((w.inodes o.ino).size - (wrapInt (p * PS)).toNat) = PS := by omega
  unfold readBlock
  rw [if_neg hb]
  simp only [sys_lseek_set, hfd, hnl, if_false, sys_read, fdGet_fdSet _ _ _ hfd0]
  have hne : ¬ (wrapInt (p * PS) = -1) := by omega
  simp [hne, fdSet, inoSet, hmin]

theorem fdGet_wroteAt (w : World) (fd : Int) (o : OpenFD) (off : Nat) (b : List Byte)
    (n : Nat) (hfd : 0 ≤ fd) :
    fdGet (wroteAt w fd o off b n) fd = some ⟨o.ino, off + n⟩ := by
  simp [wroteAt, wrote, fdGet, fdSet, inoSet, hfd]

theorem inodes_wroteAt (w : World) (fd : Int) (o : OpenFD) (off : Nat) (b : List Byte)
    (n : Nat) (j : Nat) :
    (wroteAt w fd o off b n).inodes j
      = if j = o.ino then (w.inodes o.ino).store off b n else w.inodes j := by
  simp [wroteAt, wrote, fdSet, inoSet]

/-- C1. Write/read round trip: when `writeBlock` of a `PAGE_SIZE`-byte buffer
`b` to page `p` returns `RC_OK`, the `readBlock` of page `p` that follows it
returns `RC_OK` and leaves the read buffer equal to `b`. -/
theorem writeBlock_readBlock_roundtrip (PAGE_SIZE : Nat) (p : Int) (fh : SM_FileHandle)
    (b b0 : List Byte) (w : World)
    (hb : b.length = PAGE_SIZE) (hb0 : b0.length = PAGE_SIZE)
    (hw : (writeBlock PAGE_SIZE p fh b w).rc = RC_OK) :
    (readBlock PAGE_SIZE p (writeBlock PAGE_SIZE p fh b w).fh b0
        (writeBlock PAGE_SIZE p fh b w).w).rc = RC_OK ∧
    (readBlock PAGE_SIZE p (writeBlock PAGE_SIZE p fh b w).fh b0
        (writeBlock PAGE_SIZE p fh b w).w).buf = b := by
  obtain ⟨hp0, hp1, hoff, o, hfd, _, heq⟩ := writeBlock_ok_inv hw
  have hfd0 := fdGet_nonneg hfd
  rw [heq]
  simp only
  have hsz : PAGE_SIZE ≤ ((wroteAt w (handleFd fh) o (wrapInt (p * PAGE_SIZE)).toNat b
      PAGE_SIZE).inodes o.ino).size - (wrapInt (p * PAGE_SIZE)).toNat := by
    rw [inodes_wroteAt]
    simp only [if_true, File.store]
    split <;> omega
  obtain ⟨h1, _, h3, _⟩ := readBlock_ok_of b0 hp0 hp1 hoff
    (fdGet_wroteAt w (handleFd fh) o _ b PAGE_SIZE hfd0) hsz
  refine ⟨h1, ?_⟩
  rw [h3, inodes_wroteAt]
  simp only [if_true]
  subst hb
  rw [bytesAt_store, List.drop_of_length_le (by omega)]
  simp

theorem writeBlock_readBlock_roundtrip_witness :
    (readBlock 4 1 (writeBlock 4 1 demoHandle [1, 2, 3, 4] demoWorld).fh [0, 0, 0, 0]
        (writeBlock 4 1 demoHandle [1, 2, 3, 4] demoWorld).w).rc = RC_OK ∧
    (readBlock 4 1 (writeBlock 4 1 demoHandle [1, 2, 3, 4] demoWorld).fh [0, 0, 0, 0]
        (writeBlock 4 1 demoHandle [1, 2, 3, 4] demoWorld).w).buf = [1, 2, 3, 4] :=
  writeBlock_readBlock_roundtrip 4 1 demoHandle [1, 2, 3, 4] [0, 0, 0, 0] demoWorld
    (by decide) (by decide) (by decide)

/-! ## Calls that return before any input or output -/

/-- C2. Bounds enforcement: for a page number below 0 or at least
`totalNumPages`, `readBlock` and `writeBlock` return
`RC_READ_NON_EXISTING_PAGE` and leave the handle, the caller's buffer and the
world (so every file) as they were; `readPreviousBlock` on a handle whose
`curPagePos` is 0 fails the same way. -/
theorem bounds_enforcement (PAGE_SIZE : Nat) (p : Int) (fh : SM_FileHandle)
    (buf : List Byte) (w : World) (hp : p < 0 ∨ p ≥ fh.totalNumPages) :
    readBlock PAGE_SIZE p fh buf w = ⟨RC_READ_NON_EXISTING_PAGE, fh, buf, w⟩ ∧
    writeBlock PAGE_SIZE p fh buf w = ⟨RC_READ_NON_EXISTING_PAGE, fh, w⟩ ∧
    readPreviousBlock PAGE_SIZE { fh with curPagePos := 0 } buf w
      = ⟨RC_READ_NON_EXISTING_PAGE, { fh with curPagePos := 0 }, buf, w⟩ := by
  refine ⟨?_, ?_, ?_⟩
  · simp [readBlock, hp]
  · simp [writeBlock, hp]
  · have h1 : wrapInt (-1) = -1 := by decide
    simp [readPreviousBlock, readBlock, h1]

theorem bounds_enforcement_witness :
    readBlock 4 2 demoHandle [5, 5, 5, 5] demoWorld
      = ⟨RC_READ_NON_EXISTING_PAGE, demoHandle, [5, 5, 5, 5], demoWorld⟩ ∧
    writeBlock 4 2 demoHandle [5, 5, 5, 5] demoWorld
      = ⟨RC_READ_NON_EXISTING_PAGE, demoHandle, demoWorld⟩ ∧
    readPreviousBlock 4 { demoHandle with curPagePos := 0 } [5, 5, 5, 5] demoWorld
      = ⟨RC_READ_NON_EXISTING_PAGE, { demoHandle with curPagePos := 0 }, [5, 5, 5, 5],
          demoWorld⟩ :=
  bounds_enforcement 4 2 demoHandle [5, 5, 5, 5] demoWorld (by decide)

/-- C5. `ensureCapacity` with `numberOfPages <= totalNumPages` (zero and
negative counts included) returns `RC_OK` and leaves the handle and the world
as they were, and so does a second call after it. -/
theorem ensureCapacity_noop (PAGE_SIZE : Nat) (k : Int) (fh : SM_FileHandle) (w : World)
    (hk : k ≤ fh.totalNumPages) :
    ensureCapacity PAGE_SIZE k fh w = ⟨RC_OK, fh, w⟩ ∧
    ensureCapacity PAGE_SIZE k (ensureCapacity PAGE_SIZE k fh w).fh
        (ensureCapacity PAGE_SIZE k fh w).w = ⟨RC_OK, fh, w⟩ := by
  have h1 : ensureCapacity PAGE_SIZE k fh w = ⟨RC_OK, fh, w⟩ := by
    simp [ensureCapacity, hk]
  exact ⟨h1, by rw [h1]; exact h1⟩

theorem ensureCapacity_noop_witness :
    ensureCapacity 4 (-3) demoHandle demoWorld = ⟨RC_OK, demoHandle, demoWorld⟩ ∧
    ensureCapacity 4 (-3) (ensureCapacity 4 (-3) demoHandle demoWorld).fh
        (ensureCapacity 4 (-3) demoHandle demoWorld).w = ⟨RC_OK, demoHandle, demoWorld⟩ :=
  ensureCapacity_noop 4 (-3) demoHandle demoWorld (by decide)

/-- C7. Double close: when `closePageFile` returns `RC_OK` the handle's
`mgmtInfo` is cleared, and the `closePageFile` that follows returns
`RC_FILE_HANDLE_NOT_INIT` and leaves the handle and the world as they were. -/
theorem closePageFile_twice (fh : SM_FileHandle) (w : World)
    (h : (closePageFile fh w).rc = RC_OK) :
    (closePageFile fh w).fh.mgmtInfo = 0 ∧
    closePageFile (closePageFile fh w).fh (closePageFile fh w).w
      = ⟨RC_FILE_HANDLE_NOT_INIT, (closePageFile fh w).fh, (closePageFile fh w).w⟩ := by
  unfold closePageFile at h ⊢
  by_cases h0 : fh.mgmtInfo = 0
  · simp [h0] at h
  · simp [h0]

theorem closePageFile_twice_witness :
    (closePageFile demoHandle demoWorld).fh.mgmtInfo = 0 ∧
    closePageFile (closePageFile demoHandle demoWorld).fh (closePageFile demoHandle demoWorld).w
      = ⟨RC_FILE_HANDLE_NOT_INIT, (closePageFile demoHandle demoWorld).fh,
          (closePageFile demoHandle demoWorld).w⟩ :=
  closePageFile_twice demoHandle demoWorld (by decide)

/-! ## Creating and opening -/

theorem sys_open_create_ok {w : World} {path : String}
    (h : (sys_open w path true true).1 ≠ -1) :
    ∃ (fd ino : Nat), (sys_open w path true true).1 = (fd : Int) ∧
      fdGet (sys_open w path true true).2 fd = some ⟨ino, 0⟩ ∧
      (sys_open w path true true).2.names path = some ino ∧
      ((sys_open w path true true).2.inodes ino).size = 0 ∧
      (sys_open w path true true).2.memFree = w.memFree := by
  unfold sys_open at h ⊢
  by_cases hacc : w.noAccess path = true
  · simp [hacc] at h
  · simp only [hacc] at h ⊢
    cases hfree : lowestFreeFd w with
    | none => simp [hfree] at h
    | some fd =>
      cases hname : w.names path with
      | some ino =>
        refine ⟨fd, ino, ?_⟩
        simp [fdGet, fdSet, inoSet, hname]
      | none =>
        refine ⟨fd, w.nextIno, ?_⟩
        simp [fdGet, fdSet, inoSet]

theorem sys_close_names (w : World) (fd : Int) : (sys_close w fd).2.names = w.names := by
  unfold sys_close
  cases fdGet w fd <;> rfl

theorem sys_close_inodes (w : World) (fd : Int) : (sys_close w fd).2.inodes = w.inodes := by
  unfold sys_close
  cases fdGet w fd <;> rfl

theorem createPageFile_eq (PS : Nat) (name : String) (w : World) :
    createPageFile PS name w =
      if (sys_open w name true true).1 = -1 then (RC_FILE_NOT_FOUND, (sys_open w name true true).2)
      else
        match sys_calloc (sys_open w name true true).2 PS with
        | none => (RC_WRITE_FAILED,
            (sys_close (sys_open w name true true).2 (sys_open w name true true).1).2)
        | some page =>
          if (sys_write (sys_open w name true true).2 (sys_open w name true true).1 page PS).1
              ≠ (PS : Int) then
            (RC_WRITE_FAILED,
              (sys_close
                (sys_write (sys_open w name true true).2 (sys_open w name true true).1 page PS).2
                (sys_open w name true true).1).2)
          else
            (RC_OK,
              (sys_close
                (sys_write (sys_open w name true true).2 (sys_open w name true true).1 page PS).2
                (sys_open w name true true).1).2) := by
  rfl

theorem createPageFile_ok_post {PS : Nat} {name : String} {w : World}
    (h : (createPageFile PS name w).1 = RC_OK) :
    ∃ ino, (createPageFile PS name w).2.names name = some ino ∧
      IsFreshPageFile PS ((createPageFile PS name w).2.inodes ino) := by
  rw [createPageFile_eq] at h ⊢
  by_cases hop : (sys_open w name true true).1 = -1
  · simp [hop] at h
  · rw [if_neg hop] at h ⊢
    obtain ⟨fd, ino, hfd, hget, hnm, hsz, hmem⟩ := sys_open_create_ok hop
    unfold sys_calloc at h ⊢
    by_cases hm : (sys_open w name true true).2.memFree < PS
    · simp [hm] at h
    · simp only [hm, if_false] at h ⊢
      by_cases hn : (sys_write (sys_open w name true true).2 (sys_open w name true true).1
          (List.replicate PS 0) PS).1 = (PS : Int)
      · simp only [hn, ne_eq, not_true_eq_false, if_false]
        obtain ⟨o, hfd1, _, hw2⟩ := sys_write_full hn
        rw [hfd, hget] at hfd1
        cases hfd1
        refine ⟨ino, ?_, ?_⟩
        · rw [sys_close_names, hw2]
          simpa [wrote, fdSet, inoSet] using hnm
        · rw [sys_close_inodes, hw2]
          simp only [wrote, fdSet, inoSet, if_true, File.store, IsFreshPageFile, hsz]
          constructor
          · split <;> omega
          · intro i hi
            simp [hi, List.getD_eq_getElem]
      · simp [hn] at h

theorem lowestFreeFd_lt {w : World} {fd : Nat} (h : lowestFreeFd w = some fd) :
    fd < 2147483648 := by
  unfold lowestFreeFd at h
  have hmem := List.mem_of_find?_eq_some h
  simp at hmem
  omega

theorem openPageFile_ok_inv {PS : Nat} {name : String} {fh0 : SM_FileHandle} {w : World}
    (h : (openPageFile PS name fh0 w).rc = RC_OK) :
    ∃ (fd ino : Nat), fd < 2147483648 ∧ w.names name = some ino ∧
      openPageFile PS name fh0 w
        = ⟨RC_OK,
           { fileName := name
             totalNumPages := wrapInt ((((w.inodes ino).size : Nat) : Int) / (PS : Int))
             curPagePos := 0
             mgmtInfo := fd },
           fdSet w fd (some ⟨ino, 0⟩)⟩ := by
  unfold openPageFile sys_open at h ⊢
  by_cases hacc : w.noAccess name = true
  · simp [hacc] at h
  · simp only [hacc] at h ⊢
    cases hfree : lowestFreeFd w with
    | none => simp [hfree] at h
    | some fd =>
      simp only [hfree] at h ⊢
      have hfdne : ¬ ((fd : Int) = -1) := by omega
      cases hname : w.names name with
      | some ino =>
        refine ⟨fd, ino, lowestFreeFd_lt hfree, rfl, ?_⟩
        simp [hfdne, sys_fstat_size, fdGet, fdSet]
      | none => simp [hname] at h

theorem handleFd_of_nat (name : String) (t c : Int) (fd : Nat) (hfd : fd < 2147483648) :
    handleFd ⟨name, t, c, (fd : Int)⟩ = (fd : Int) := by
  unfold handleFd wrapInt
  simp only
  omega

/-- C3. Creation contract: when `createPageFile` returns `RC_OK` on a file
name (new or existing) and `openPageFile` on that name then returns `RC_OK`,
the handle has `totalNumPages = 1` and `curPagePos = 0`, and `readBlock` of
page 0 returns `RC_OK` with the buffer holding `PAGE_SIZE` zero bytes. -/
theorem create_open_read (PAGE_SIZE : Nat) (name : String) (fh0 : SM_FileHandle)
    (buf : List Byte) (w : World) (hPS : 0 < PAGE_SIZE) (hbuf : buf.length = PAGE_SIZE)
    (hc : (createPageFile PAGE_SIZE name w).1 = RC_OK)
    (ho : (openPageFile PAGE_SIZE name fh0 (createPageFile PAGE_SIZE name w).2).rc = RC_OK) :
    (openPageFile PAGE_SIZE name fh0 (createPageFile PAGE_SIZE name w).2).fh.totalNumPages = 1 ∧
    (openPageFile PAGE_SIZE name fh0 (createPageFile PAGE_SIZE name w).2).fh.curPagePos = 0 ∧
    (readBlock PAGE_SIZE 0
        (openPageFile PAGE_SIZE name fh0 (createPageFile PAGE_SIZE name w).2).fh buf
        (openPageFile PAGE_SIZE name fh0 (createPageFile PAGE_SIZE name w).2).w).rc = RC_OK ∧
    (readBlock PAGE_SIZE 0
        (openPageFile PAGE_SIZE name fh0 (createPageFile PAGE_SIZE name w).2).fh buf
        (openPageFile PAGE_SIZE name fh0 (createPageFile PAGE_SIZE name w).2).w).buf
      = List.replicate PAGE_SIZE 0 := by
  obtain ⟨ino, hnm, hsz, hzero⟩ := createPageFile_ok_post hc
  obtain ⟨fd, ino1, hfdlt, hnm1, heq⟩ := openPageFile_ok_inv ho
  rw [hnm] at hnm1
  cases hnm1
  rw [heq]
  simp only
  have hone : wrapInt ((PAGE_SIZE : Int) / (PAGE_SIZE : Int)) = 1 := by
    rw [Int.ediv_self (by omega)]
    decide
  have hoff : wrapInt (0 * (PAGE_SIZE : Int)) = 0 := by
    rw [zero_mul]
    decide
  rw [hsz, hone]
  have hget : fdGet (fdSet (createPageFile PAGE_SIZE name w).2 (fd : Int) (some ⟨ino, 0⟩))
      (handleFd ⟨name, 1, 0, (fd : Int)⟩) = some ⟨ino, 0⟩ := by
    rw [handleFd_of_nat _ _ _ _ hfdlt]
    exact fdGet_fdSet _ _ _ (by omega)
  have hsize : PAGE_SIZE ≤ ((fdSet (createPageFile PAGE_SIZE name w).2 (fd : Int)
      (some ⟨ino, 0⟩)).inodes ino).size - (wrapInt (0 * (PAGE_SIZE : Int))).toNat := by
    rw [hoff]
    simp [fdSet, hsz]
  have hlt : (0 : Int) < (⟨name, 1, 0, (fd : Int)⟩ : SM_FileHandle).totalNumPages := by
    simp
  obtain ⟨h1, _, h3, _⟩ := readBlock_ok_of buf (le_refl 0) hlt (by rw [hoff]) hget hsize
  refine ⟨rfl, trivial, h1, ?_⟩
  rw [h3, hoff, List.drop_of_length_le (by omega)]
  simp only [fdSet, List.append_nil, File.bytesAt, Int.toNat_zero, zero_add]
  apply List.ext_getElem
  · simp
  · intro i h1 h2
    simp at h1
    simp [hzero i h1]

theorem create_open_read_witness :
    (openPageFile 4 "t1" demoHandle (createPageFile 4 "t1" demoWorld).2).fh.totalNumPages = 1 ∧
    (openPageFile 4 "t1" demoHandle (createPageFile 4 "t1" demoWorld).2).fh.curPagePos = 0 ∧
    (readBlock 4 0
        (openPageFile 4 "t1" demoHandle (createPageFile 4 "t1" demoWorld).2).fh [9, 9, 9, 9]
        (openPageFile 4 "t1" demoHandle (createPageFile 4 "t1" demoWorld).2).w).rc = RC_OK ∧
    (readBlock 4 0
        (openPageFile 4 "t1" demoHandle (createPageFile 4 "t1" demoWorld).2).fh [9, 9, 9, 9]
        (openPageFile 4 "t1" demoHandle (createPageFile 4 "t1" demoWorld).2).w).buf
      = List.replicate 4 0 :=
  create_open_read 4 "t1" demoHandle [9, 9, 9, 9] demoWorld (by decide) (by decide)
    (by decide) (by decide)

/-! ## Appending -/

theorem store_append_size (f : File) (n : Nat) (page : List Byte) :
    (f.store f.size page n).size = f.size + n := by
  unfold File.store
  simp only
  split <;> omega

theorem store_append_data (f : File) (n : Nat) (i : Nat) :
    (f.store f.size (List.replicate n 0) n).data i
      = if f.size ≤ i ∧ i < f.size + n then 0 else f.data i := by
  unfold File.store
  simp only
  by_cases h : f.size ≤ i ∧ i < f.size + n
  · rw [if_pos h, if_pos h]
    simp only [List.getD_eq_getElem?_getD, List.getElem?_replicate]
    split <;> rfl
  · rw [if_neg h, if_neg h, if_neg (by omega)]

theorem appendEmptyBlock_ok_inv {PS : Nat} {fh : SM_FileHandle} {w : World}
    (h : (appendEmptyBlock PS fh w).rc = RC_OK) :
    ∃ o, fdGet w (handleFd fh) = some o ∧ PS ≤ w.diskFree ∧ PS ≤ w.memFree ∧
      appendEmptyBlock PS fh w
        = ⟨RC_OK, { fh with totalNumPages := wrapInt (fh.totalNumPages + 1) },
            wroteAt w (handleFd fh) o (w.inodes o.ino).size (List.replicate PS 0) PS⟩ := by
  unfold appendEmptyBlock sys_calloc at h ⊢
  by_cases hm : w.memFree < PS
  · simp [hm] at h
  · simp only [hm, if_false] at h ⊢
    cases hfd : fdGet w (handleFd fh) with
    | none =>
      simp [sys_lseek_end, sys_write, hfd] at h
    | some o =>
      have hfd0 := fdGet_nonneg hfd
      simp only [sys_lseek_end, hfd] at h ⊢
      by_cases hn : (sys_write (fdSet w (handleFd fh) (some { o with pos := (w.inodes o.ino).size }))
          (handleFd fh) (List.replicate PS 0) PS).1 = (PS : Int)
      · obtain ⟨o1, hfd1, hcap, hw2⟩ := sys_write_full hn
        rw [fdGet_fdSet _ _ _ hfd0] at hfd1
        cases hfd1
        refine ⟨o, rfl, ?_, by omega, ?_⟩
        · simp [fdSet] at hcap
          omega
        · simp only [ne_eq, hn, not_true_eq_false, if_false]
          rw [hw2]
          rfl
      · simp [hn] at h

theorem pages_nonneg_of_aligned {PS : Nat} {size : Nat} {n : Int} (hPS : 0 < PS)
    (h : (size : Int) = n * PS) : 0 ≤ n := by
  by_contra hneg
  have h1 : n ≤ -1 := by omega
  have h2 : n * (PS : Int) ≤ (-1) * (PS : Int) :=
    Int.mul_le_mul_of_nonneg_right h1 (by omega)
  omega

set_option maxRecDepth 100000 in
/-- The offset hypothesis of `appendEmptyBlock_aligned` is needed: on a
page-aligned file of `2 ^ 20` pages of 4096 bytes the append succeeds, and
`readBlock` of the new page `2 ^ 20` seeks to the wrapped offset 0 and
returns page 0, whose first byte is 7. -/
theorem appendEmptyBlock_read_offset_wraps :
    fdGet fullWorld (handleFd fullHandle) = some ⟨1, 0⟩ ∧
    ((fullWorld.inodes 1).size : Int) = fullHandle.totalNumPages * 4096 ∧
    fullAppended.rc = RC_OK ∧ fullAppended.fh.totalNumPages = 1048577 ∧
    (readBlock 4096 1048576 fullAppended.fh (List.replicate 4096 0) fullAppended.w).rc = RC_OK ∧
    (readBlock 4096 1048576 fullAppended.fh (List.replicate 4096 0) fullAppended.w).buf.head?
      = some 7 := by
  decide

/-! ## Growing to a page count -/

theorem growBy_refl (f : File) : GrewBy f f 0 :=
  ⟨rfl, fun _ _ => rfl, fun i h1 h2 => by omega⟩

theorem growBy_trans {f g h : File} {a b : Nat} (h1 : GrewBy f g a) (h2 : GrewBy g h b) :
    GrewBy f h (a + b) := by
  obtain ⟨s1, k1, z1⟩ := h1
  obtain ⟨s2, k2, z2⟩ := h2
  refine ⟨by omega, ?_, ?_⟩
  · intro i hi
    rw [k2 i (by omega), k1 i hi]
  · intro i hi1 hi2
    by_cases hi : i < g.size
    · rw [k2 i hi]
      exact z1 i hi1 (by omega)
    · exact z2 i (by omega) (by omega)

theorem appendEmptyBlock_fail_fh {PS : Nat} {fh : SM_FileHandle} {w : World}
    (h : (appendEmptyBlock PS fh w).rc ≠ RC_OK) : (appendEmptyBlock PS fh w).fh = fh := by
  unfold appendEmptyBlock at h ⊢
  cases hc : sys_calloc w PS with
  | none => rfl
  | some page =>
    simp only [hc] at h ⊢
    split
    · rfl
    · rename_i hn
      simp [hn] at h

/-- One successful append, seen from the file: same descriptor and file, one
more page in the count, `PAGE_SIZE` zero bytes more at the end. -/
theorem appendEmptyBlock_ok_step {PS : Nat} {fh : SM_FileHandle} {w : World} {o : OpenFD}
    (hfd : fdGet w (handleFd fh) = some o) (h : (appendEmptyBlock PS fh w).rc = RC_OK) :
    (∃ pos, fdGet (appendEmptyBlock PS fh w).w (handleFd fh) = some ⟨o.ino, pos⟩) ∧
    handleFd (appendEmptyBlock PS fh w).fh = handleFd fh ∧
    (appendEmptyBlock PS fh w).fh.totalNumPages = wrapInt (fh.totalNumPages + 1) ∧
    (appendEmptyBlock PS fh w).fh.curPagePos = fh.curPagePos ∧
    GrewBy (w.inodes o.ino) ((appendEmptyBlock PS fh w).w.inodes o.ino) PS := by
  obtain ⟨o1, hfd1, _, _, heq⟩ := appendEmptyBlock_ok_inv h
  rw [hfd] at hfd1
  cases hfd1
  rw [heq]
  refine ⟨⟨_, fdGet_wroteAt _ _ _ _ _ _ (fdGet_nonneg hfd)⟩, rfl, rfl, rfl, ?_⟩
  simp only [inodes_wroteAt, if_true]
  refine ⟨store_append_size _ _ _, ?_, ?_⟩
  · intro i hi
    rw [store_append_data, if_neg (by omega)]
  · intro i h1 h2
    rw [store_append_data, if_pos ⟨h1, h2⟩]

theorem afterAppends_ok (PS : Nat) :
    ∀ (j : Nat) (fh : SM_FileHandle) (w : World) (o : OpenFD),
      fdGet w (handleFd fh) = some o →
      (∀ i, i < j → (nthAppend PS i fh w).rc = RC_OK) →
      -2147483648 ≤ fh.totalNumPages → fh.totalNumPages + j < 2147483648 →
      (∃ pos, fdGet (afterAppends PS j (fh, w)).2 (handleFd fh) = some ⟨o.ino, pos⟩) ∧
      handleFd (afterAppends PS j (fh, w)).1 = handleFd fh ∧
      (afterAppends PS j (fh, w)).1.totalNumPages = fh.totalNumPages + j ∧
      (afterAppends PS j (fh, w)).1.curPagePos = fh.curPagePos ∧
      GrewBy (w.inodes o.ino) ((afterAppends PS j (fh, w)).2.inodes o.ino) (j * PS) := by
  intro j
  induction j with
  | zero =>
    intro fh w o hfd _ _ _
    refine ⟨⟨o.pos, hfd⟩, rfl, by simp [afterAppends], rfl, ?_⟩
    simpa [afterAppends] using growBy_refl (w.inodes o.ino)
  | succ j ih =>
    intro fh w o hfd hall hlo hhi
    have h0 : (appendEmptyBlock PS fh w).rc = RC_OK := hall 0 (by omega)
    obtain ⟨⟨pos, hfd1⟩, hh, ht, hc, hg⟩ := appendEmptyBlock_ok_step hfd h0
    have hw1 : wrapInt (fh.totalNumPages + 1) = fh.totalNumPages + 1 :=
      wrapInt_of_isCInt ⟨by omega, by omega⟩
    rw [hw1] at ht
    have hall1 : ∀ i, i < j → (nthAppend PS i (appendEmptyBlock PS fh w).fh
        (appendEmptyBlock PS fh w).w).rc = RC_OK := by
      intro i hi
      exact hall (i + 1) (by omega)
    rw [← hh] at hfd1
    obtain ⟨⟨pos2, hfd2⟩, hh2, ht2, hc2, hg2⟩ :=
      ih (appendEmptyBlock PS fh w).fh (appendEmptyBlock PS fh w).w ⟨o.ino, pos⟩ hfd1 hall1
        (by omega) (by rw [ht]; push_cast at hhi ⊢; omega)
    simp only [afterAppends]
    refine ⟨⟨pos2, by rw [← hh]; exact hfd2⟩, by rw [hh2, hh], ?_, by rw [hc2, hc], ?_⟩
    · rw [ht2, ht]
      push_cast
      omega
    · have := growBy_trans hg hg2
      have he : PS + j * PS = (j + 1) * PS := by ring
      rw [he] at this
      exact this

theorem ensureCapacityLoop_ok (PS : Nat) :
    ∀ (m : Nat) (fh : SM_FileHandle) (w : World),
      (∀ j, j < m → (nthAppend PS j fh w).rc = RC_OK) →
      ensureCapacityLoop PS m fh w
        = ⟨RC_OK, (afterAppends PS m (fh, w)).1, (afterAppends PS m (fh, w)).2⟩ := by
  intro m
  induction m with
  | zero =>
    intro fh w _
    rfl
  | succ m ih =>
    intro fh w hall
    have h0 : (appendEmptyBlock PS fh w).rc = RC_OK := hall 0 (by omega)
    simp only [ensureCapacityLoop, h0, ne_eq, not_true_eq_false, if_false, afterAppends]
    exact ih _ _ (fun j hj => hall (j + 1) (by omega))

theorem ensureCapacityLoop_fail (PS : Nat) :
    ∀ (m j : Nat) (fh : SM_FileHandle) (w : World), j < m →
      (∀ i, i < j → (nthAppend PS i fh w).rc = RC_OK) →
      (nthAppend PS j fh w).rc ≠ RC_OK →
      ensureCapacityLoop PS m fh w = nthAppend PS j fh w := by
  intro m
  induction m with
  | zero =>
    intro j fh w hj
    omega
  | succ m ih =>
    intro j fh w hj hall hfail
    cases j with
    | zero =>
      have h0 : (appendEmptyBlock PS fh w).rc ≠ RC_OK := hfail
      simp only [ensureCapacityLoop, h0, ne_eq, not_false_eq_true, if_true]
      rfl
    | succ j =>
      have h0 : (appendEmptyBlock PS fh w).rc = RC_OK := hall 0 (by omega)
      simp only [ensureCapacityLoop, h0, ne_eq, not_true_eq_false, if_false]
      exact ih j _ _ (by omega) (fun i hi => hall (i + 1) (by omega)) hfail

theorem ensureCapacityLoop_ok_all (PS : Nat) :
    ∀ (m : Nat) (fh : SM_FileHandle) (w : World),
      (ensureCapacityLoop PS m fh w).rc = RC_OK →
      ∀ j, j < m → (nthAppend PS j fh w).rc = RC_OK := by
  intro m
  induction m with
  | zero =>
    intro fh w _ j hj
    omega
  | succ m ih =>
    intro fh w hok j hj
    by_cases h0 : (appendEmptyBlock PS fh w).rc = RC_OK
    · simp only [ensureCapacityLoop, h0, ne_eq, not_true_eq_false, if_false] at hok
      cases j with
      | zero => exact h0
      | succ j => exact ih _ _ hok j (by omega)
    · simp only [ensureCapacityLoop, h0, ne_eq, not_false_eq_true, if_true] at hok

theorem pageAt_eq_of_data {PS : Nat} {f g : File} {q : Nat}
    (h : ∀ i, i < PS → g.data (q * PS + i) = f.data (q * PS + i)) :
    pageAt PS g q = pageAt PS f q := by
  unfold pageAt File.bytesAt
  apply List.map_congr_left
  intro i hi
  exact h i (by simpa using hi)

theorem pageAt_zero_of_data {PS : Nat} {g : File} {q : Nat}
    (h : ∀ i, i < PS → g.data (q * PS + i) = 0) :
    pageAt PS g q = List.replicate PS 0 := by
  unfold pageAt File.bytesAt
  apply List.ext_getElem
  · simp
  · intro i h1 h2
    simp at h1
    simp [h i h1]

/-- The pages of a file that grew by `d` pages of zeros from `n` pages. -/
theorem growBy_pages {PS : Nat} {f g : File} {n d : Nat} (hsz : f.size = n * PS)
    (hg : GrewBy f g (d * PS)) :
    g.size = (n + d) * PS ∧
    (∀ q, q < n → pageAt PS g q = pageAt PS f q) ∧
    (∀ q, n ≤ q → q < n + d → pageAt PS g q = List.replicate PS 0) := by
  obtain ⟨s, k, z⟩ := hg
  refine ⟨by rw [s, hsz]; ring, ?_, ?_⟩
  · intro q hq
    apply pageAt_eq_of_data
    intro i hi
    apply k
    have : (q + 1) * PS ≤ n * PS := Nat.mul_le_mul_right PS (by omega)
    rw [hsz]
    linarith
  · intro q hq1 hq2
    apply pageAt_zero_of_data
    intro i hi
    have h1 : n * PS ≤ q * PS := Nat.mul_le_mul_right PS hq1
    have h2 : (q + 1) * PS ≤ (n + d) * PS := Nat.mul_le_mul_right PS (by omega)
    apply z
    · rw [hsz]
      linarith
    · rw [hsz]
      linarith

theorem ensureCapacity_eq_loop {PS : Nat} {k : Int} {fh : SM_FileHandle} {w : World}
    (hk : fh.totalNumPages < k) :
    ensureCapacity PS k fh w
      = ensureCapacityLoop PS (k - fh.totalNumPages).toNat fh w := by
  unfold ensureCapacity
  rw [if_neg (by omega)]

/-- C6. `ensureCapacity` grows to exactly the requested count: on a handle
open on a file of exactly `totalNumPages * PAGE_SIZE` bytes and for a count
`k > totalNumPages`, if every append of the row succeeds then `ensureCapacity`
returns `RC_OK`, `totalNumPages` is `k`, the file has `k` pages, the old pages
are unchanged and the new ones are all zero; if append number `j` is the
first to fail then `ensureCapacity` ends with that append (its return code,
handle and world are what that append left) and `totalNumPages` is the old
count plus `j`. -/
theorem ensureCapacity_grows (PAGE_SIZE : Nat) (k : Int) (fh : SM_FileHandle) (w : World)
    (o : OpenFD) (hPS : 0 < PAGE_SIZE) (hfd : fdGet w (handleFd fh) = some o)
    (halign : ((w.inodes o.ino).size : Int) = fh.totalNumPages * PAGE_SIZE)
    (hk : fh.totalNumPages < k) (hkint : k < 2147483648) :
    ((∀ j, j < (k - fh.totalNumPages).toNat → (nthAppend PAGE_SIZE j fh w).rc = RC_OK) →
      (ensureCapacity PAGE_SIZE k fh w).rc = RC_OK ∧
      (ensureCapacity PAGE_SIZE k fh w).fh.totalNumPages = k ∧
      (∃ pos, fdGet (ensureCapacity PAGE_SIZE k fh w).w
          (handleFd (ensureCapacity PAGE_SIZE k fh w).fh) = some ⟨o.ino, pos⟩) ∧
      ((ensureCapacity PAGE_SIZE k fh w).w.inodes o.ino).size = k.toNat * PAGE_SIZE ∧
      (∀ q, q < fh.totalNumPages.toNat →
        pageAt PAGE_SIZE ((ensureCapacity PAGE_SIZE k fh w).w.inodes o.ino) q
          = pageAt PAGE_SIZE (w.inodes o.ino) q) ∧
      (∀ q, fh.totalNumPages.toNat ≤ q → q < k.toNat →
        pageAt PAGE_SIZE ((ensureCapacity PAGE_SIZE k fh w).w.inodes o.ino) q
          = List.replicate PAGE_SIZE 0)) ∧
    (∀ j, j < (k - fh.totalNumPages).toNat →
      (∀ i, i < j → (nthAppend PAGE_SIZE i fh w).rc = RC_OK) →
      (nthAppend PAGE_SIZE j fh w).rc ≠ RC_OK →
      ensureCapacity PAGE_SIZE k fh w = nthAppend PAGE_SIZE j fh w ∧
      (ensureCapacity PAGE_SIZE k fh w).fh.totalNumPages = fh.totalNumPages + j) := by
  have hn0 : 0 ≤ fh.totalNumPages := pages_nonneg_of_aligned hPS halign
  rw [ensureCapacity_eq_loop hk]
  constructor
  · intro hall
    rw [ensureCapacityLoop_ok PAGE_SIZE _ fh w hall]
    obtain ⟨⟨pos, hfd2⟩, hh, ht, _, hg⟩ :=
      afterAppends_ok PAGE_SIZE (k - fh.totalNumPages).toNat fh w o hfd hall (by omega)
        (by omega)
    have hsz : (w.inodes o.ino).size = fh.totalNumPages.toNat * PAGE_SIZE := by
      have h1 : ((fh.totalNumPages.toNat : Nat) : Int) = fh.totalNumPages :=
        Int.toNat_of_nonneg hn0
      rw [← h1] at halign
      exact_mod_cast halign
    obtain ⟨g1, g2, g3⟩ := growBy_pages hsz hg
    have hK : fh.totalNumPages.toNat + (k - fh.totalNumPages).toNat = k.toNat := by omega
    rw [hK] at g1 g3
    refine ⟨rfl, ?_, ⟨pos, by rw [hh]; exact hfd2⟩, g1, g2, g3⟩
    simp only [ht]
    omega
  · intro j hj hall hfail
    rw [ensureCapacityLoop_fail PAGE_SIZE _ j fh w hj hall hfail]
    refine ⟨rfl, ?_⟩
    obtain ⟨_, _, ht, _, _⟩ :=
      afterAppends_ok PAGE_SIZE j fh w o hfd hall (by omega) (by omega)
    have hf : (nthAppend PAGE_SIZE j fh w).fh = (afterAppends PAGE_SIZE j (fh, w)).1 :=
      appendEmptyBlock_fail_fh hfail
    rw [hf, ht]

theorem ensureCapacity_grows_witness :
    ((ensureCapacity 4 4 demoHandle demoWorld).rc = RC_OK ∧
      (ensureCapacity 4 4 demoHandle demoWorld).fh.totalNumPages = 4 ∧
      (∃ pos, fdGet (ensureCapacity 4 4 demoHandle demoWorld).w
          (handleFd (ensureCapacity 4 4 demoHandle demoWorld).fh) = some ⟨1, pos⟩) ∧
      ((ensureCapacity 4 4 demoHandle demoWorld).w.inodes 1).size = (4 : Int).toNat * 4 ∧
      (∀ q, q < demoHandle.totalNumPages.toNat →
        pageAt 4 ((ensureCapacity 4 4 demoHandle demoWorld).w.inodes 1) q
          = pageAt 4 (demoWorld.inodes 1) q) ∧
      (∀ q, demoHandle.totalNumPages.toNat ≤ q → q < (4 : Int).toNat →
        pageAt 4 ((ensureCapacity 4 4 demoHandle demoWorld).w.inodes 1) q
          = List.replicate 4 0)) ∧
    (ensureCapacity 4 5 demoHandle tightWorld = nthAppend 4 1 demoHandle tightWorld ∧
      (ensureCapacity 4 5 demoHandle tightWorld).fh.totalNumPages
        = demoHandle.totalNumPages + ((1 : Nat) : Int)) :=
  ⟨(ensureCapacity_grows 4 4 demoHandle demoWorld ⟨1, 0⟩ (by decide) (by decide) (by decide)
      (by decide) (by decide)).1 (by decide),
   (ensureCapacity_grows 4 5 demoHandle tightWorld ⟨1, 0⟩ (by decide) (by decide) (by decide)
      (by decide) (by decide)).2 1 (by decide) (by decide) (by decide)⟩


/-- A second `ensureCapacity` with the same count after one that returned
`RC_OK` changes nothing, also when the first one grew the file. -/
theorem ensureCapacity_idempotent (PAGE_SIZE : Nat) (k : Int) (fh : SM_FileHandle) (w : World)
    (hkint : k < 2147483648) (hlo : -2147483648 ≤ fh.totalNumPages)
    (hok : (ensureCapacity PAGE_SIZE k fh w).rc = RC_OK) :
    ensureCapacity PAGE_SIZE k (ensureCapacity PAGE_SIZE k fh w).fh
        (ensureCapacity PAGE_SIZE k fh w).w
      = ⟨RC_OK, (ensureCapacity PAGE_SIZE k fh w).fh, (ensureCapacity PAGE_SIZE k fh w).w⟩ := by
  by_cases hk : k ≤ fh.totalNumPages
  · have h1 : ensureCapacity PAGE_SIZE k fh w = ⟨RC_OK, fh, w⟩ := by
      simp [ensureCapacity, hk]
    rw [h1]
    exact h1
  · have hlt : fh.totalNumPages < k := by omega
    rw [ensureCapacity_eq_loop hlt] at hok ⊢
    have hall := ensureCapacityLoop_ok_all PAGE_SIZE _ fh w hok
    have h0 : (appendEmptyBlock PAGE_SIZE fh w).rc = RC_OK := hall 0 (by omega)
    obtain ⟨o, hfd, _, _, _⟩ := appendEmptyBlock_ok_inv h0
    obtain ⟨_, _, ht, _, _⟩ :=
      afterAppends_ok PAGE_SIZE (k - fh.totalNumPages).toNat fh w o hfd hall hlo (by omega)
    rw [ensureCapacityLoop_ok PAGE_SIZE _ fh w hall]
    have hge : k ≤ (afterAppends PAGE_SIZE (k - fh.totalNumPages).toNat (fh, w)).1.totalNumPages := by
      rw [ht]
      omega
    simp [ensureCapacity, hge]

/-! ## The page-alignment invariant -/

theorem wrapInt_le_self {x : Int} (hx : 0 ≤ x) : wrapInt x ≤ x := by
  unfold wrapInt
  omega

theorem readBlock_inSync {PS : Nat} {ino : Nat} {fh : SM_FileHandle} {w : World}
    (p : Int) (buf : List Byte) (h : InSync PS ino fh w) :
    InSync PS ino (readBlock PS p fh buf w).fh (readBlock PS p fh buf w).w := by
  obtain ⟨⟨pos, hfd⟩, hsz⟩ := h
  have hfd0 := fdGet_nonneg hfd
  unfold readBlock
  by_cases hb : p < 0 ∨ p ≥ fh.totalNumPages
  · rw [if_pos hb]
    exact ⟨⟨pos, hfd⟩, hsz⟩
  · rw [if_neg hb]
    simp only [sys_lseek_set, hfd]
    by_cases hoff : wrapInt (p * PS) < 0
    · simp only [hoff, if_true]
      exact ⟨⟨pos, hfd⟩, hsz⟩
    · have hne : ¬ (wrapInt (p * PS) = -1) := by omega
      simp only [hoff, if_false, hne, sys_read, fdGet_fdSet _ _ _ hfd0]
      split
      · exact ⟨⟨_, fdGet_fdSet _ _ _ hfd0⟩, hsz⟩
      · exact ⟨⟨_, fdGet_fdSet _ _ _ hfd0⟩, hsz⟩

theorem writeBlock_inSync {PS : Nat} {ino : Nat} {fh : SM_FileHandle} {w : World}
    (p : Int) (buf : List Byte) (h : InSync PS ino fh w) :
    InSync PS ino (writeBlock PS p fh buf w).fh (writeBlock PS p fh buf w).w := by
  obtain ⟨⟨pos, hfd⟩, hsz⟩ := h
  have hfd0 := fdGet_nonneg hfd
  unfold writeBlock
  by_cases hb : p < 0 ∨ p ≥ fh.totalNumPages
  · rw [if_pos hb]
    exact ⟨⟨pos, hfd⟩, hsz⟩
  · rw [if_neg hb]
    simp only [sys_lseek_set, hfd]
    by_cases hoff : wrapInt (p * PS) < 0
    · simp only [hoff, if_true]
      exact ⟨⟨pos, hfd⟩, hsz⟩
    · have hne : ¬ (wrapInt (p * PS) = -1) := by omega
      have hp0 : 0 ≤ p * (PS : Int) := Int.mul_nonneg (by omega) (by omega)
      have hle : wrapInt (p * PS) ≤ p * PS := wrapInt_le_self hp0
      have hp1 : (p + 1) * (PS : Int) ≤ fh.totalNumPages * PS :=
        Int.mul_le_mul_of_nonneg_right (by omega) (by omega)
      have hin : (wrapInt (p * PS)).toNat + PS ≤ (w.inodes ino).size := by
        have : ((wrapInt (p * PS)).toNat : Int) = wrapInt (p * PS) :=
          Int.toNat_of_nonneg (by omega)
        have h3 : (p + 1) * (PS : Int) = p * PS + PS := by ring
        omega
      simp only [hoff, if_false, hne, sys_write, fdGet_fdSet _ _ _ hfd0]
      have hmin : min PS (((fdSet w (handleFd fh) (some ⟨ino, (wrapInt (p * PS)).toNat⟩)).inodes
          ino).size + (fdSet w (handleFd fh) (some ⟨ino, (wrapInt (p * PS)).toNat⟩)).diskFree
          - (wrapInt (p * PS)).toNat) = PS := by
        simp only [fdSet]
        omega
      simp only [hmin]
      have hsame : ((wrote (fdSet w (handleFd fh) (some ⟨ino, (wrapInt (p * PS)).toNat⟩))
          (handleFd fh) ⟨ino, (wrapInt (p * PS)).toNat⟩ buf PS).inodes ino).size
          = (w.inodes ino).size := by
        simp only [wrote, fdSet, inoSet, if_true, File.store]
        split
        · rfl
        · omega
      have hget : fdGet (wrote (fdSet w (handleFd fh) (some ⟨ino, (wrapInt (p * PS)).toNat⟩))
          (handleFd fh) ⟨ino, (wrapInt (p * PS)).toNat⟩ buf PS) (handleFd fh)
          = some ⟨ino, (wrapInt (p * PS)).toNat + PS⟩ := by
        simp [wrote, fdGet, fdSet, inoSet, hfd0]
      have hcond : ¬ (PS = 0 ∧ 0 < PS) := by omega
      rw [if_neg hcond]
      simp only [ne_eq, not_true_eq_false, if_false]
      exact ⟨⟨_, hget⟩, by rw [hsame]; exact hsz⟩

theorem appendEmptyBlock_inSync {PS : Nat} {ino : Nat} {fh : SM_FileHandle} {w : World}
    (hPS : 0 < PS) (h : InSync PS ino fh w)
    (hok : (appendEmptyBlock PS fh w).rc = RC_OK) (hint : fh.totalNumPages + 1 < 2147483648) :
    InSync PS ino (appendEmptyBlock PS fh w).fh (appendEmptyBlock PS fh w).w := by
  obtain ⟨⟨pos, hfd⟩, hsz⟩ := h
  have hn0 : 0 ≤ fh.totalNumPages := pages_nonneg_of_aligned hPS hsz
  obtain ⟨⟨pos1, hfd1⟩, hh, ht, _, hg⟩ := appendEmptyBlock_ok_step hfd hok
  rw [wrapInt_of_isCInt ⟨by omega, hint⟩] at ht
  refine ⟨⟨pos1, by rw [hh]; exact hfd1⟩, ?_⟩
  have hs := hg.1
  simp only at hs
  rw [ht, hs]
  push_cast
  rw [hsz]
  ring

theorem ensureCapacity_inSync {PS : Nat} {ino : Nat} {fh : SM_FileHandle} {w : World}
    (hPS : 0 < PS) (k : Int) (h : InSync PS ino fh w)
    (hok : (ensureCapacity PS k fh w).rc = RC_OK) (hint : k < 2147483648) :
    InSync PS ino (ensureCapacity PS k fh w).fh (ensureCapacity PS k fh w).w := by
  by_cases hk : k ≤ fh.totalNumPages
  · have : ensureCapacity PS k fh w = ⟨RC_OK, fh, w⟩ := by simp [ensureCapacity, hk]
    rw [this]
    exact h
  · obtain ⟨⟨pos, hfd⟩, hsz⟩ := h
    have hn0 : 0 ≤ fh.totalNumPages := pages_nonneg_of_aligned hPS hsz
    have hlt : fh.totalNumPages < k := by omega
    rw [ensureCapacity_eq_loop hlt] at hok ⊢
    have hall := ensureCapacityLoop_ok_all PS _ fh w hok
    rw [ensureCapacityLoop_ok PS _ fh w hall]
    obtain ⟨⟨pos1, hfd1⟩, hh, ht, _, hg⟩ :=
      afterAppends_ok PS (k - fh.totalNumPages).toNat fh w ⟨ino, pos⟩ hfd hall (by omega)
        (by omega)
    refine ⟨⟨pos1, by rw [hh]; exact hfd1⟩, ?_⟩
    have hs := hg.1
    simp only at hs ⊢
    rw [ht, hs]
    push_cast
    rw [hsz]
    ring

theorem sys_fstat_size_of_fdGet {w : World} {fd : Int} {o : OpenFD}
    (h : fdGet w fd = some o) : sys_fstat_size w fd = (w.inodes o.ino).size := by
  simp [sys_fstat_size, h]

theorem fdGet_wrote (w : World) (fd : Int) (o : OpenFD) (b : List Byte) (n : Nat)
    (hfd : 0 ≤ fd) : fdGet (wrote w fd o b n) fd = some ⟨o.ino, o.pos + n⟩ := by
  simp [wrote, fdGet, fdSet, inoSet, hfd]

/-- Whatever `appendEmptyBlock` returns, the descriptor stays open on the
same file. -/
theorem appendEmptyBlock_fdGet (PS : Nat) {ino pos : Nat} {fh : SM_FileHandle} {w : World}
    (hfd : fdGet w (handleFd fh) = some ⟨ino, pos⟩) :
    ∃ pos1, fdGet (appendEmptyBlock PS fh w).w (handleFd fh) = some ⟨ino, pos1⟩ := by
  have hfd0 := fdGet_nonneg hfd
  unfold appendEmptyBlock sys_calloc
  by_cases hm : w.memFree < PS
  · simp only [hm, if_true]
    exact ⟨pos, hfd⟩
  · simp only [hm, if_false, sys_lseek_end, hfd, sys_write, fdGet_fdSet _ _ _ hfd0]
    split
    · split
      · exact ⟨_, fdGet_fdSet _ _ _ hfd0⟩
      · exact ⟨_, fdGet_fdSet _ _ _ hfd0⟩
    · split
      · exact ⟨_, fdGet_wrote _ _ _ _ _ hfd0⟩
      · exact ⟨_, fdGet_wrote _ _ _ _ _ hfd0⟩

theorem appendEmptyBlock_inSync_any {PS : Nat} {ino : Nat} {fh : SM_FileHandle} {w : World}
    (hPS : 0 < PS) (h : InSync PS ino fh w) (hshort : ¬ ShortAppend PS fh w)
    (hint : (appendEmptyBlock PS fh w).rc = RC_OK → fh.totalNumPages + 1 < 2147483648) :
    InSync PS ino (appendEmptyBlock PS fh w).fh (appendEmptyBlock PS fh w).w := by
  by_cases hok : (appendEmptyBlock PS fh w).rc = RC_OK
  · exact appendEmptyBlock_inSync hPS h hok (hint hok)
  · obtain ⟨⟨pos, hfd⟩, hsz⟩ := h
    obtain ⟨pos1, hfd1⟩ := appendEmptyBlock_fdGet PS hfd
    have hfh : (appendEmptyBlock PS fh w).fh = fh := appendEmptyBlock_fail_fh hok
    have hsame : ((appendEmptyBlock PS fh w).w.inodes ino).size = (w.inodes ino).size := by
      by_contra hne
      apply hshort
      refine ⟨hok, ?_⟩
      rw [sys_fstat_size_of_fdGet hfd, sys_fstat_size_of_fdGet hfd1]
      exact hne
    rw [hfh]
    exact ⟨⟨pos1, hfd1⟩, by rw [hsame]; exact hsz⟩

theorem ensureCapacityLoop_inSync {PS : Nat} {ino : Nat} (hPS : 0 < PS) :
    ∀ (m : Nat) (fh : SM_FileHandle) (w : World), InSync PS ino fh w →
      fh.totalNumPages + m < 2147483648 →
      (∀ j, j < m → (∀ i, i < j → (nthAppend PS i fh w).rc = RC_OK) →
        ¬ ShortAppend PS (afterAppends PS j (fh, w)).1 (afterAppends PS j (fh, w)).2) →
      InSync PS ino (ensureCapacityLoop PS m fh w).fh (ensureCapacityLoop PS m fh w).w := by
  intro m
  induction m with
  | zero =>
    intro fh w h _ _
    exact h
  | succ m ih =>
    intro fh w h hint hns
    have hshort : ¬ ShortAppend PS fh w := hns 0 (by omega) (fun i hi => by omega)
    have hstep : InSync PS ino (appendEmptyBlock PS fh w).fh (appendEmptyBlock PS fh w).w :=
      appendEmptyBlock_inSync_any hPS h hshort (fun _ => by omega)
    by_cases h0 : (appendEmptyBlock PS fh w).rc = RC_OK
    · simp only [ensureCapacityLoop, h0, ne_eq, not_true_eq_false, if_false]
      obtain ⟨⟨pos, hfd⟩, hsz⟩ := h
      have hn0 : 0 ≤ fh.totalNumPages := pages_nonneg_of_aligned hPS hsz
      obtain ⟨_, _, ht, _, _⟩ := appendEmptyBlock_ok_step hfd h0
      rw [wrapInt_of_isCInt ⟨by omega, by omega⟩] at ht
      apply ih _ _ hstep
      · rw [ht]
        push_cast at hint ⊢
        omega
      · intro j hj hall
        apply hns (j + 1) (by omega)
        intro i hi
        cases i with
        | zero => exact h0
        | succ i => exact hall i (by omega)
    · simp only [ensureCapacityLoop, h0, ne_eq, not_false_eq_true, if_true]
      exact hstep

theorem ensureCapacity_inSync_any {PS : Nat} {ino : Nat} {fh : SM_FileHandle} {w : World}
    (hPS : 0 < PS) (k : Int) (h : InSync PS ino fh w) (hint : k < 2147483648)
    (hns : ∀ j, j < (k - fh.totalNumPages).toNat →
      (∀ i, i < j → (nthAppend PS i fh w).rc = RC_OK) →
      ¬ ShortAppend PS (afterAppends PS j (fh, w)).1 (afterAppends PS j (fh, w)).2) :
    InSync PS ino (ensureCapacity PS k fh w).fh (ensureCapacity PS k fh w).w := by
  by_cases hk : k ≤ fh.totalNumPages
  · have : ensureCapacity PS k fh w = ⟨RC_OK, fh, w⟩ := by simp [ensureCapacity, hk]
    rw [this]
    exact h
  · rw [ensureCapacity_eq_loop (by omega)]
    exact ensureCapacityLoop_inSync hPS _ fh w h (by omega) hns

theorem Op.run_inSync {PS : Nat} {ino : Nat} {fh : SM_FileHandle} {w : World}
    (hPS : 0 < PS) (op : Op) (h : InSync PS ino fh w) (hg : op.NoShortAppend PS fh w) :
    InSync PS ino (op.run PS fh w).fh (op.run PS fh w).w := by
  cases op with
  | readBlock p b => exact readBlock_inSync p b h
  | readFirstBlock b => exact readBlock_inSync _ b h
  | readPreviousBlock b => exact readBlock_inSync _ b h
  | readCurrentBlock b => exact readBlock_inSync _ b h
  | readNextBlock b => exact readBlock_inSync _ b h
  | readLastBlock b => exact readBlock_inSync _ b h
  | writeBlock p b => exact writeBlock_inSync p b h
  | writeCurrentBlock b => exact writeBlock_inSync _ b h
  | appendEmptyBlock => exact appendEmptyBlock_inSync_any hPS h hg.1 hg.2
  | ensureCapacity k => exact ensureCapacity_inSync_any hPS k h hg.1 hg.2

theorem runOps_inSync {PS : Nat} {ino : Nat} (hPS : 0 < PS) :
    ∀ (ops : List Op) (s : SM_FileHandle × World), InSync PS ino s.1 s.2 →
      AllNoShortAppend PS ops s → InSync PS ino (runOps PS ops s).1 (runOps PS ops s).2 := by
  intro ops
  induction ops with
  | nil =>
    intro s h _
    exact h
  | cons op ops ih =>
    intro s h hg
    exact ih _ (Op.run_inSync hPS op h hg.1) hg.2

theorem openPageFile_inSync {PS : Nat} {name : String} {fh0 : SM_FileHandle} {w : World}
    (hPS : 0 < PS) (hc : (createPageFile PS name w).1 = RC_OK)
    (ho : (openPageFile PS name fh0 (createPageFile PS name w).2).rc = RC_OK) :
    ∃ ino, InSync PS ino (openPageFile PS name fh0 (createPageFile PS name w).2).fh
      (openPageFile PS name fh0 (createPageFile PS name w).2).w := by
  obtain ⟨ino, hnm, hsz, _⟩ := createPageFile_ok_post hc
  obtain ⟨fd, ino1, hfdlt, hnm1, heq⟩ := openPageFile_ok_inv ho
  rw [hnm] at hnm1
  cases hnm1
  rw [heq]
  refine ⟨ino, ⟨0, ?_⟩, ?_⟩
  · simp only [handleFd_of_nat _ _ _ _ hfdlt]
    exact fdGet_fdSet _ _ _ (by omega)
  · have hone : wrapInt ((PS : Int) / (PS : Int)) = 1 := by
      rw [Int.ediv_self (by omega)]
      decide
    simp only [fdSet, hsz, hone]
    ring

/-- C8 (amended). Page alignment is an invariant as long as no append is
short: starting from a file made by a `createPageFile` that returned `RC_OK`
and the handle of an `openPageFile` on it that returned `RC_OK`, after every
sequence of calls on the handle (reads, writes, `appendEmptyBlock`,
`ensureCapacity`), whatever each returned, in which no append (called
directly or by `ensureCapacity`) failed after a short write and the page
counts reached are C `int` values, the handle is open on a file whose size is
an exact multiple of `PAGE_SIZE`, and `totalNumPages` is that size divided by
`PAGE_SIZE`. -/
theorem page_alignment_invariant (PAGE_SIZE : Nat) (name : String) (fh0 : SM_FileHandle)
    (w : World) (ops : List Op) (hPS : 0 < PAGE_SIZE)
    (hc : (createPageFile PAGE_SIZE name w).1 = RC_OK)
    (ho : (openPageFile PAGE_SIZE name fh0 (createPageFile PAGE_SIZE name w).2).rc = RC_OK)
    (hg : AllNoShortAppend PAGE_SIZE ops
      ((openPageFile PAGE_SIZE name fh0 (createPageFile PAGE_SIZE name w).2).fh,
       (openPageFile PAGE_SIZE name fh0 (createPageFile PAGE_SIZE name w).2).w)) :
    ∃ o, fdGet (runOps PAGE_SIZE ops
          ((openPageFile PAGE_SIZE name fh0 (createPageFile PAGE_SIZE name w).2).fh,
           (openPageFile PAGE_SIZE name fh0 (createPageFile PAGE_SIZE name w).2).w)).2
        (handleFd (runOps PAGE_SIZE ops
          ((openPageFile PAGE_SIZE name fh0 (createPageFile PAGE_SIZE name w).2).fh,
           (openPageFile PAGE_SIZE name fh0 (createPageFile PAGE_SIZE name w).2).w)).1)
        = some o ∧
      ((runOps PAGE_SIZE ops
          ((openPageFile PAGE_SIZE name fh0 (createPageFile PAGE_SIZE name w).2).fh,
           (openPageFile PAGE_SIZE name fh0 (createPageFile PAGE_SIZE name w).2).w)).2.inodes
        o.ino).size % PAGE_SIZE = 0 ∧
      (runOps PAGE_SIZE ops
          ((openPageFile PAGE_SIZE name fh0 (createPageFile PAGE_SIZE name w).2).fh,
           (openPageFile PAGE_SIZE name fh0 (createPageFile PAGE_SIZE name w).2).w)).1.totalNumPages
        = (((runOps PAGE_SIZE ops
          ((openPageFile PAGE_SIZE name fh0 (createPageFile PAGE_SIZE name w).2).fh,
           (openPageFile PAGE_SIZE name fh0 (createPageFile PAGE_SIZE name w).2).w)).2.inodes
        o.ino).size / PAGE_SIZE : Nat) := by
  obtain ⟨ino, hsync⟩ := openPageFile_inSync hPS hc ho
  generalize openPageFile PAGE_SIZE name fh0 (createPageFile PAGE_SIZE name w).2 = r
    at hsync hg ⊢
  have hfin := runOps_inSync hPS ops (r.fh, r.w) hsync hg
  generalize runOps PAGE_SIZE ops (r.fh, r.w) = s at hfin ⊢
  obtain ⟨⟨pos, hfd⟩, hsz⟩ := hfin
  refine ⟨⟨ino, pos⟩, hfd, ?_⟩
  have hn0 := pages_nonneg_of_aligned hPS hsz
  obtain ⟨N, hN⟩ := Int.eq_ofNat_of_zero_le hn0
  rw [hN] at hsz ⊢
  have hsz1 : (s.2.inodes ino).size = N * PAGE_SIZE := by exact_mod_cast hsz
  simp only [hsz1]
  constructor
  · exact Nat.mul_mod_left _ _
  · rw [Nat.mul_div_cancel _ hPS]

theorem page_alignment_invariant_witness :
    ∃ o, fdGet (runOps 4 exactDiskOps (exactDiskOpened.fh, exactDiskOpened.w)).2
        (handleFd (runOps 4 exactDiskOps (exactDiskOpened.fh, exactDiskOpened.w)).1) = some o ∧
      ((runOps 4 exactDiskOps (exactDiskOpened.fh, exactDiskOpened.w)).2.inodes o.ino).size % 4
        = 0 ∧
      (runOps 4 exactDiskOps (exactDiskOpened.fh, exactDiskOpened.w)).1.totalNumPages
        = (((runOps 4 exactDiskOps (exactDiskOpened.fh, exactDiskOpened.w)).2.inodes
            o.ino).size / 4 : Nat) :=
  page_alignment_invariant 4 "t3" ⟨"", 0, 0, 0⟩ exactDiskWorld exactDiskOps (by decide)
    (by decide) (by decide) (by decide)

/-- The calls of `exactDiskOps` include failing growth: the `ensureCapacity`
to 5 pages returns `RC_WRITE_FAILED` with 3 pages counted and 12 bytes in the
file, and the append after it returns `RC_WRITE_FAILED` on the full disk
without changing the file size. -/
theorem exactDiskOps_failing_growth :
    (ensureCapacity 4 5 (runOps 4 [.writeBlock 0 [1, 2, 3, 4]]
        (exactDiskOpened.fh, exactDiskOpened.w)).1
      (runOps 4 [.writeBlock 0 [1, 2, 3, 4]] (exactDiskOpened.fh, exactDiskOpened.w)).2).rc
      = RC_WRITE_FAILED ∧
    (runOps 4 (exactDiskOps.take 2) (exactDiskOpened.fh, exactDiskOpened.w)).1.totalNumPages
      = 3 ∧
    ((runOps 4 (exactDiskOps.take 2) (exactDiskOpened.fh, exactDiskOpened.w)).2.inodes 1).size
      = 12 ∧
    (appendEmptyBlock 4
        (runOps 4 (exactDiskOps.take 3) (exactDiskOpened.fh, exactDiskOpened.w)).1
        (runOps 4 (exactDiskOps.take 3) (exactDiskOpened.fh, exactDiskOpened.w)).2).rc
      = RC_WRITE_FAILED ∧
    ((runOps 4 (exactDiskOps.take 4) (exactDiskOpened.fh, exactDiskOpened.w)).2.inodes 1).size
      = 12 := by
  decide

/-- C8 as stated fails after a short write in `appendEmptyBlock`: with 6 free
bytes on the disk, `createPageFile` and `openPageFile` succeed with 4-byte
pages, the append then writes 2 of its 4 bytes and returns `RC_WRITE_FAILED`
(it is a `ShortAppend`), and the file is left 6 bytes long. -/
theorem short_append_counterexample :
    (createPageFile 4 "t2" smallDiskWorld).1 = RC_OK ∧ smallDiskOpened.rc = RC_OK ∧
    smallDiskAppended.rc = RC_WRITE_FAILED ∧
    ShortAppend 4 smallDiskOpened.fh smallDiskOpened.w ∧
    fdGet smallDiskAppended.w (handleFd smallDiskAppended.fh) = some ⟨1, 6⟩ ∧
    (smallDiskAppended.w.inodes 1).size = 6 ∧
    (smallDiskAppended.w.inodes 1).size % 4 ≠ 0 := by
  decide

/-! ## Use of a closed handle -/

/-- C9 at a closed handle: after `closePageFile` cleared `mgmtInfo`, only
`closePageFile` returns `RC_FILE_HANDLE_NOT_INIT`.  `ensureCapacity` within
the page count returns `RC_OK` and `readBlock` out of range returns
`RC_READ_NON_EXISTING_PAGE`, both before any system call; in range the calls
go to descriptor 0: `readBlock` returns `RC_READ_NON_EXISTING_PAGE`, and
`writeBlock`, `writeCurrentBlock`, `appendEmptyBlock` and a growing
`ensureCapacity` return `RC_OK` after writing to it, the file behind it
growing from 0 to 4 bytes on the append. -/
theorem closed_handle_not_rejected :
    demoClosed.rc = RC_OK ∧ demoClosed.fh.mgmtInfo = 0 ∧
    (closePageFile demoClosed.fh demoClosed.w).rc = RC_FILE_HANDLE_NOT_INIT ∧
    (ensureCapacity 4 2 demoClosed.fh demoClosed.w).rc = RC_OK ∧
    (readBlock 4 7 demoClosed.fh [0, 0, 0, 0] demoClosed.w).rc = RC_READ_NON_EXISTING_PAGE ∧
    (readBlock 4 0 demoClosed.fh [0, 0, 0, 0] demoClosed.w).rc = RC_READ_NON_EXISTING_PAGE ∧
    (writeBlock 4 0 demoClosed.fh [1, 2, 3, 4] demoClosed.w).rc = RC_OK ∧
    (writeCurrentBlock 4 demoClosed.fh [1, 2, 3, 4] demoClosed.w).rc = RC_OK ∧
    (appendEmptyBlock 4 demoClosed.fh demoClosed.w).rc = RC_OK ∧
    (ensureCapacity 4 3 demoClosed.fh demoClosed.w).rc = RC_OK ∧
    (demoClosed.w.inodes 0).size = 0 ∧
    ((appendEmptyBlock 4 demoClosed.fh demoClosed.w).w.inodes 0).size = 4 := by
  decide

/-! ## Writing a page in place -/

/-- Within the `int` range `writeBlock` overwrites the addressed page only:
on a handle open on a file of exactly `totalNumPages * PAGE_SIZE` bytes, when
the offset `p * PAGE_SIZE` is a C `int` and `writeBlock` returns `RC_OK`, the
handle and the file size are unchanged, every other page is unchanged, and
page `p` holds the buffer. -/
theorem writeBlock_frame (PAGE_SIZE : Nat) (ino : Nat) (p : Int) (fh : SM_FileHandle)
    (b : List Byte) (w : World) (hsync : InSync PAGE_SIZE ino fh w)
    (hb : b.length = PAGE_SIZE) (hoffset : p * PAGE_SIZE < 2147483648)
    (hok : (writeBlock PAGE_SIZE p fh b w).rc = RC_OK) :
    (writeBlock PAGE_SIZE p fh b w).fh = fh ∧
    ((writeBlock PAGE_SIZE p fh b w).w.inodes ino).size = (w.inodes ino).size ∧
    (∀ q, q ≠ p.toNat →
      pageAt PAGE_SIZE ((writeBlock PAGE_SIZE p fh b w).w.inodes ino) q
        = pageAt PAGE_SIZE (w.inodes ino) q) ∧
    pageAt PAGE_SIZE ((writeBlock PAGE_SIZE p fh b w).w.inodes ino) p.toNat = b := by
  obtain ⟨⟨pos, hfd⟩, hsz⟩ := hsync
  obtain ⟨hp0, hp1, _, o, hfd1, _, heq⟩ := writeBlock_ok_inv hok
  rw [hfd] at hfd1
  cases hfd1
  have hpp : 0 ≤ p * (PAGE_SIZE : Int) := Int.mul_nonneg hp0 (by omega)
  have hwrap : wrapInt (p * PAGE_SIZE) = p * PAGE_SIZE := wrapInt_of_isCInt ⟨by omega, hoffset⟩
  have hP : ((p.toNat : Nat) : Int) = p := Int.toNat_of_nonneg hp0
  have hoff : (wrapInt (p * PAGE_SIZE)).toNat = p.toNat * PAGE_SIZE := by
    rw [hwrap]
    have : p * (PAGE_SIZE : Int) = ((p.toNat * PAGE_SIZE : Nat) : Int) := by
      push_cast
      rw [hP]
    rw [this]
    exact Int.toNat_ofNat _
  have hle : p.toNat * PAGE_SIZE + PAGE_SIZE ≤ (w.inodes ino).size := by
    have h1 : (p + 1) * (PAGE_SIZE : Int) ≤ fh.totalNumPages * PAGE_SIZE :=
      Int.mul_le_mul_of_nonneg_right (by omega) (by omega)
    have h2 : (p + 1) * (PAGE_SIZE : Int) = p * PAGE_SIZE + PAGE_SIZE := by ring
    have h3 : ((p.toNat * PAGE_SIZE : Nat) : Int) = p * PAGE_SIZE := by
      push_cast
      rw [hP]
    omega
  rw [heq, hoff]
  simp only [inodes_wroteAt, if_true]
  refine ⟨trivial, ?_, ?_, ?_⟩
  · simp only [File.store]
    split
    · rfl
    · omega
  · intro q hq
    apply pageAt_eq_of_data
    intro i hi
    have hout : ¬ (p.toNat * PAGE_SIZE ≤ q * PAGE_SIZE + i ∧
        q * PAGE_SIZE + i < p.toNat * PAGE_SIZE + PAGE_SIZE) := by
      rcases Nat.lt_or_gt_of_ne hq with hlt | hgt
      · have : (q + 1) * PAGE_SIZE ≤ p.toNat * PAGE_SIZE :=
          Nat.mul_le_mul_right PAGE_SIZE (by omega)
        have h2 : (q + 1) * PAGE_SIZE = q * PAGE_SIZE + PAGE_SIZE := by ring
        omega
      · have : (p.toNat + 1) * PAGE_SIZE ≤ q * PAGE_SIZE :=
          Nat.mul_le_mul_right PAGE_SIZE (by omega)
        have h2 : (p.toNat + 1) * PAGE_SIZE = p.toNat * PAGE_SIZE + PAGE_SIZE := by ring
        omega
    simp only [File.store]
    rw [if_neg hout, if_neg (by omega)]
  · unfold pageAt
    subst hb
    exact bytesAt_store _ _ _

set_option maxRecDepth 100000 in
/-- C10 at a page whose offset leaves the `int` range: with `PAGE_SIZE = 4096`
the offset of page `2 ^ 20` is `2 ^ 32`, which wraps to 0; `writeBlock` of a
page of ones to page `2 ^ 20` returns `RC_OK`, page 0 is no longer what it
was and page `2 ^ 20` does not hold the buffer: the first byte of page 0 is
now 1 and the first byte of page `2 ^ 20` is still 0. -/
theorem writeBlock_offset_wraps :
    fdGet bigWorld (handleFd bigHandle) = some ⟨1, 0⟩ ∧
    ((bigWorld.inodes 1).size : Int) = bigHandle.totalNumPages * 4096 ∧
    0 ≤ (1048576 : Int) ∧ (1048576 : Int) < bigHandle.totalNumPages ∧
    wrapInt (1048576 * 4096) = 0 ∧
    bigWritten.rc = RC_OK ∧
    pageAt 4096 (bigWritten.w.inodes 1) 0 ≠ pageAt 4096 (bigWorld.inodes 1) 0 ∧
    pageAt 4096 (bigWritten.w.inodes 1) 1048576 ≠ List.replicate 4096 1 ∧
    (bigWorld.inodes 1).data 0 = 0 ∧ (bigWritten.w.inodes 1).data 0 = 1 ∧
    (bigWritten.w.inodes 1).data (1048576 * 4096) = 0 := by
  decide

end StorageMgr
